import Mathlib

/-!
BackChannel OSC: message codec and connection worker.

A shallow embedding of `BackChannelOSCMessage.cpp` and `BackChannelOSCConnection.cpp`.

Conventions of the embedding.

* A byte is a `UInt8`; an `FString` is the list of its character codes (the codec only
  moves strings through `TCHAR_TO_ANSI` / `ANSI_TO_TCHAR`, so a character is one byte).
* A `TArray<uint8>` is a `List UInt8`.  `AddUninitialized` leaves the new cells with
  whatever the allocator hands out; their contents are the parameter `heap`
  (cell index to byte), over which every theorem quantifies.
* `int32` counts that are sizes of arrays are naturals; quantities the source can drive
  below zero (`DataLength`, `kArgLength`, `ExpectedDataSize`, return values of the
  transport) are integers.  Signed overflow is not modelled.
* A store through a raw pointer to an index outside the array is dropped; a load or a
  string scan that runs off the end of an array yields only its in-array part.  The one
  exception is `CreateFromBuffer`, whose result type records those executions.
* A clock reading is the rational value of the `double` that `FPlatformTime::Seconds()`
  returns.  The members `LastActivityTime` and `LastPingTime` hold such readings as they
  are (their declaration is in the header, which is not among the sources).  The locals
  `TimeNow` and `TimeSinceActivity` of `Run` are `float`: `ToFloat` is the conversion to
  IEEE 754 binary32 and `ToDouble` the rounding of an exact result to binary64, both to
  nearest with ties to even.
-/

namespace BackChannel

/-! ## Memory primitives -/

/-- Modelled from the spec: `RoundedArgumentSize` is declared in the message header,
which is not among the sources; the spec gives `n + ((4 - n % 4) % 4)`. -/
def RoundedArgumentSize (n : Nat) : Nat := n + ((4 - n % 4) % 4)

/-- The call `TArray::AddUninitialized(Count)`: `Count` new cells at the end, cell `i`
of the array holding `heap i`. -/
def AddUninitialized (arr : List UInt8) (Count : Nat) (heap : Nat → UInt8) : List UInt8 :=
  arr ++ (List.range Count).map (fun i => heap (arr.length + i))

/-- The call `FMemory::Memcpy(dst + off, src, src.length)`. -/
def Memcpy (dst : List UInt8) (off : Nat) : List UInt8 → List UInt8
  | [] => dst
  | b :: bs => Memcpy (dst.set off b) (off + 1) bs

/-- The characters of the null-terminated string that starts at the head of `mem`. -/
def CStr (mem : List UInt8) : List UInt8 := mem.takeWhile (fun b => b != 0)

/-- The call `FCStringAnsi::Strncpy(Dest + off, Src, MaxLen)`: C `strncpy` (at most
`MaxLen` characters, the rest of the `MaxLen` cells zeroed) followed by
`Dest[MaxLen-1] = 0`. -/
def Strncpy (Dest : List UInt8) (off : Nat) (Src : List UInt8) (MaxLen : Nat) : List UInt8 :=
  let s := (CStr Src).take MaxLen
  (Memcpy Dest off (s ++ List.replicate (MaxLen - s.length) 0)).set (off + (MaxLen - 1)) 0

/-- The call `FCStringAnsi::Strcpy(Dest + off, DestCount, Src)`: the characters and the
terminator, nothing after it. -/
def Strcpy (Dest : List UInt8) (off : Nat) (Src : List UInt8) : List UInt8 :=
  Memcpy Dest off (CStr Src ++ [0])

/-- The call `FString::Find(",")`: index of the first comma, `-1` when there is none. -/
def FindComma (s : List UInt8) : Int :=
  if (44 : UInt8) ∈ s then (s.indexOf (44 : UInt8) : Int) else -1

/-- The call `FString::operator+=(TCHAR)`: the zero character is not appended (it
would end the string). -/
def AppendChar (s : List UInt8) (InChar : UInt8) : List UInt8 :=
  if InChar ≠ 0 then s ++ [InChar] else s

/-- The call `FString::RightChop(Count)`. -/
def RightChop (s : List UInt8) (Count : Int) : List UInt8 := s.drop Count.toNat

/-! ## FBackChannelOSCMessage -/

inductive OSCPacketMode where
  | Read
  | Write
deriving DecidableEq, Repr

structure FBackChannelOSCMessage where
  Mode : OSCPacketMode
  Address : List UInt8
  TagString : List UInt8
  TagIndex : Nat
  Buffer : List UInt8
  BufferIndex : Nat
deriving DecidableEq, Repr

/-- The two `UE_LOG(LogBackChannel, Error, ...)` records of the field readers. -/
inductive OSCError where
  | NoMoreTags (Code : UInt8)
  | TagMismatch (Code : UInt8) (CurrentTag : UInt8)
deriving DecidableEq, Repr

/-- What a call of a field accessor leaves behind: the message, the caller's data
(`InData`, or `Value` for a string) and the error record it logged, if any. -/
structure Access where
  Msg : FBackChannelOSCMessage
  Data : List UInt8
  Logged : Option OSCError
deriving DecidableEq, Repr

namespace FBackChannelOSCMessage

/-- The constructor `FBackChannelOSCMessage(OSCPacketMode InMode)`. -/
def Construct (InMode : OSCPacketMode) : FBackChannelOSCMessage :=
  { Mode := InMode, Address := [], TagString := [], TagIndex := 0, Buffer := [], BufferIndex := 0 }

def SetAddress (m : FBackChannelOSCMessage) (InAddress : List UInt8) : FBackChannelOSCMessage :=
  { m with Address := CStr InAddress }

/-- The element `TagString[TagIndex]`; an `FString` keeps its terminator in the
character array, so the element at index `Len()` is `0`. -/
def CurrentTag (m : FBackChannelOSCMessage) : UInt8 := m.TagString.getD m.TagIndex 0

def SerializeWrite (heap : Nat → UInt8) (m : FBackChannelOSCMessage) (Code : UInt8)
    (InData : List UInt8) (InSize : Nat) : FBackChannelOSCMessage :=
  let TagString := AppendChar m.TagString Code
  let RoundedSize := RoundedArgumentSize InSize
  let Buffer := AddUninitialized m.Buffer RoundedSize heap
  let Buffer := Memcpy Buffer m.BufferIndex (InData.take InSize)
  { m with TagString := TagString, Buffer := Buffer,
           BufferIndex := m.BufferIndex + RoundedSize, TagIndex := m.TagIndex + 1 }

def SerializeRead (m : FBackChannelOSCMessage) (Code : UInt8)
    (InData : List UInt8) (InSize : Nat) : Access :=
  if m.TagIndex = m.TagString.length then
    { Msg := m, Data := InData, Logged := some (OSCError.NoMoreTags Code) }
  else
    let CurrentTag := m.CurrentTag
    if CurrentTag ≠ Code then
      { Msg := m, Data := InData, Logged := some (OSCError.TagMismatch Code CurrentTag) }
    else
      { Msg := { m with BufferIndex := m.BufferIndex + RoundedArgumentSize InSize,
                        TagIndex := m.TagIndex + 1 },
        Data := Memcpy InData 0 ((m.Buffer.drop m.BufferIndex).take InSize),
        Logged := none }

def Serialize (heap : Nat → UInt8) (m : FBackChannelOSCMessage) (Code : UInt8)
    (InData : List UInt8) (InSize : Nat) : Access :=
  match m.Mode with
  | OSCPacketMode.Read => SerializeRead m Code InData InSize
  | OSCPacketMode.Write =>
    { Msg := SerializeWrite heap m Code InData InSize, Data := InData, Logged := none }

/-- The method `SerializeString(FString& Value)`; `'s'` is 115. -/
def SerializeString (heap : Nat → UInt8) (m : FBackChannelOSCMessage)
    (Value : List UInt8) : Access :=
  match m.Mode with
  | OSCPacketMode.Write =>
    let StartingIndex := m.BufferIndex
    let StringLen := Value.length
    let m1 := SerializeWrite heap m 115 (CStr Value ++ [0]) (StringLen + 1)
    { Msg := { m1 with Buffer := m1.Buffer.set (StartingIndex + StringLen) 0 },
      Data := Value, Logged := none }
  | OSCPacketMode.Read =>
    let CurrentTag := m.CurrentTag
    if CurrentTag ≠ 115 then
      { Msg := m, Data := Value, Logged := some (OSCError.TagMismatch 115 CurrentTag) }
    else
      let Value := CStr (m.Buffer.drop m.BufferIndex)
      { Msg := { m with BufferIndex := m.BufferIndex + RoundedArgumentSize (Value.length + 1),
                        TagIndex := m.TagIndex + 1 },
        Data := Value, Logged := none }

/-- The string `FString::Printf(TEXT(",%s"), *GetTags())`. -/
def FinalTagString (m : FBackChannelOSCMessage) : List UInt8 := 44 :: CStr m.TagString

def GetSize (m : FBackChannelOSCMessage) : Nat :=
  let kAddressLength := RoundedArgumentSize (m.Address.length + 1)
  let kTagLength := RoundedArgumentSize (m.FinalTagString.length + 1)
  let kArgumentSize := m.BufferIndex
  kAddressLength + kTagLength + kArgumentSize

/-- The method `WriteToBuffer(TArray<uint8>& OutBuffer)`; `pOutBuffer` is kept as an
offset from `OutBuffer.GetData()`. -/
def WriteToBuffer (heap : Nat → UInt8) (m : FBackChannelOSCMessage)
    (OutBuffer : List UInt8) : List UInt8 :=
  let kRequiredSize := m.GetSize
  let Out := AddUninitialized OutBuffer kRequiredSize heap
  let pOutBuffer := 0
  let kAddressLength := RoundedArgumentSize (m.Address.length + 1)
  let kTagLength := RoundedArgumentSize (m.FinalTagString.length + 1)
  let Out := Strncpy Out pOutBuffer m.Address kAddressLength
  let Out := Out.set (pOutBuffer + kAddressLength) 0
  let pOutBuffer := pOutBuffer + RoundedArgumentSize kAddressLength
  let Out := Strcpy Out pOutBuffer m.FinalTagString
  let Out := Out.set (pOutBuffer + kTagLength) 0
  let pOutBuffer := pOutBuffer + RoundedArgumentSize kTagLength
  Memcpy Out pOutBuffer (m.Buffer.take m.BufferIndex)

end FBackChannelOSCMessage

/-- Executions of `CreateFromBuffer` that leave what the embedding models: a string
scan that finds no terminator in `Data`, a copy that needs bytes `Data` does not have,
and `AddUninitialized` called with a negative count. -/
inductive Undefined where
  | ReadOutsideMemory
  | NegativeCount (kArgLength : Int)
deriving DecidableEq, Repr

/-- The scan `ANSI_TO_TCHAR((ANSICHAR*)(Data + off))`: the characters up to the first
zero byte at or after `off`, whatever the declared length of the packet. -/
def AnsiToTChar (Data : List UInt8) (off : Nat) : Except Undefined (List UInt8) :=
  if (0 : UInt8) ∈ Data.drop off then Except.ok (CStr (Data.drop off))
  else Except.error Undefined.ReadOutsideMemory

/-- The static `FBackChannelOSCMessage::CreateFromBuffer(Data, DataLength)`.  The
result is a `TSharedPtr`: `some` for the message, `none` for a null pointer. -/
def CreateFromBuffer (Data : List UInt8) (DataLength : Int) :
    Except Undefined (Option FBackChannelOSCMessage) := do
  let NewMessage := FBackChannelOSCMessage.Construct OSCPacketMode.Read
  let Address ← AnsiToTChar Data 0
  let NewMessage := { NewMessage with Address := Address }
  let pParsedData := RoundedArgumentSize (NewMessage.Address.length + 1)
  let TagString ← AnsiToTChar Data pParsedData
  let NewMessage := { NewMessage with TagString := RightChop TagString (FindComma TagString + 1) }
  let pParsedData := pParsedData + RoundedArgumentSize (TagString.length + 1)
  let kArgLength : Int := DataLength - (pParsedData : Int)
  if kArgLength < 0 then Except.error (Undefined.NegativeCount kArgLength)
  else if Data.length < pParsedData + kArgLength.toNat then
    Except.error Undefined.ReadOutsideMemory
  else
    -- `AddUninitialized(kArgLength)` on the empty buffer, every new cell then overwritten
    let NewMessage := { NewMessage with Buffer := (Data.drop pParsedData).take kArgLength.toNat }
    return some NewMessage

/-- Indexes of `Data` that the two string scans of `CreateFromBuffer` load: each scan
loads every byte from its start up to and including its terminator. -/
def CreateFromBufferScanReads (Data : List UInt8) : List Nat :=
  let Address := CStr Data
  let pParsedData := RoundedArgumentSize (Address.length + 1)
  let TagString := CStr (Data.drop pParsedData)
  List.range' 0 (Address.length + 1) ++ List.range' pParsedData (TagString.length + 1)

/-! ## Clock arithmetic -/

/-- The power `2 ^ e` for an integer exponent. -/
def Pow2 (e : Int) : ℚ :=
  if 0 ≤ e then ((2 ^ e.toNat : Nat) : ℚ) else 1 / ((2 ^ (-e).toNat : Nat) : ℚ)

/-- The number of halvings that take `n` below 2, which for `n ≥ 1` is the floor of
its binary logarithm; `fuel` bounds the count and `n` itself is always enough. -/
def Log2Aux : Nat → Nat → Nat
  | 0, _ => 0
  | fuel + 1, n => if 2 ≤ n then Log2Aux fuel (n / 2) + 1 else 0

/-- The exponent `e` with `2 ^ e ≤ q < 2 ^ (e + 1)`, for `q > 0`. -/
def Log2Floor (q : ℚ) : Int :=
  let e : Int := (Log2Aux q.num.toNat q.num.toNat : Int) - (Log2Aux q.den q.den : Int)
  if Pow2 e ≤ q then e else e - 1

/-- The integer nearest to `q`, a tie going to the even one. -/
def RoundHalfEven (q : ℚ) : Int :=
  let n := ⌊q⌋
  let r := q - n
  if r < 1 / 2 then n else if 1 / 2 < r then n + 1 else if n % 2 = 0 then n else n + 1

/-- The value nearest to `q` in the binary floating-point format with `p` significand
bits and exponents `emin` to `emax` (round to nearest, ties to even, subnormal values
below `2 ^ emin`).  A magnitude that would round past the largest finite value is held
at that value; no clock reading comes near it. -/
def RoundBinary (p : Nat) (emin emax : Int) (q : ℚ) : ℚ :=
  if q = 0 then 0
  else
    let a := if q < 0 then -q else q
    let e := max (Log2Floor a) emin
    let ulp := Pow2 (e - ((p : Int) - 1))
    let r := (RoundHalfEven (a / ulp) : ℚ) * ulp
    let big := Pow2 (emax + 1) - Pow2 (emax + 1 - (p : Int))
    let r := if big < r then big else r
    if q < 0 then -r else r

/-- The conversion of a value to `float` (IEEE 754 binary32). -/
def ToFloat (q : ℚ) : ℚ := RoundBinary 24 (-126) 127 q

/-- The `double` (IEEE 754 binary64) that an operation with exact result `q` yields. -/
def ToDouble (q : ℚ) : ℚ := RoundBinary 53 (-1022) 1023 q

/-! ## FBackChannelOSCConnection -/

/-- The transport behind `IBackChannelConnection`: `SendData` takes the state of the
transport and the bytes handed to it, and gives the new state and its return value. -/
structure IBackChannelConnection (σ : Type) where
  SendData : σ → List UInt8 → σ × Int

/-- The members of `FBackChannelOSCConnection`.  The two times hold clock readings
(`FPlatformTime::Seconds()`, a `double`) as rationals. -/
structure FBackChannelOSCConnection (σ : Type) (Packet : Type) where
  Connection : σ
  IsRunning : Bool
  ExitRequested : Bool
  LastActivityTime : ℚ
  LastPingTime : ℚ
  ReceivedPackets : List Packet

/-- The four bytes of an `int32` in memory (little-endian, two's complement). -/
def Int32Bytes (n : Int) : List UInt8 :=
  let u := (n % 4294967296).toNat
  [UInt8.ofNat (u % 256), UInt8.ofNat (u / 256 % 256), UInt8.ofNat (u / 65536 % 256),
   UInt8.ofNat (u / 16777216 % 256)]

/-- The `int32` that `FMemory::Memcpy(&Size, Buffer.GetData(), sizeof(int32))` loads
from the first four bytes of `mem` (little-endian, two's complement). -/
def Int32OfBytes (mem : List UInt8) : Int :=
  let u := (mem.getD 0 0).toNat + 256 * (mem.getD 1 0).toNat + 65536 * (mem.getD 2 0).toNat
    + 16777216 * (mem.getD 3 0).toNat
  if u < 2147483648 then (u : Int) else (u : Int) - 4294967296

namespace FBackChannelOSCConnection

variable {σ Packet : Type}

def IsConnected (s : FBackChannelOSCConnection σ Packet) : Bool := s.IsRunning

/-- The method `SendPacketData(Data, DataLen)`; `Now` is the clock reading taken when
the payload was sent. -/
def SendPacketData (T : IBackChannelConnection σ) (s : FBackChannelOSCConnection σ Packet)
    (Data : List UInt8) (DataLen : Int) (Now : ℚ) : FBackChannelOSCConnection σ Packet × Bool :=
  if !s.IsConnected then (s, false)
  else
    if DataLen > 0 then
      let c1 := (T.SendData s.Connection (Int32Bytes DataLen)).1
      let r := T.SendData c1 (Data.take DataLen.toNat)
      let Sent := r.2
      if Sent > 0 then ({ s with Connection := r.1, LastActivityTime := Now }, true)
      else ({ s with Connection := r.1 }, false)
    else (s, false)

/-- The method `SendPacket(Packet)` for a message packet: `Packet.WriteToBuffer()`
fills a fresh array. -/
def SendPacket (T : IBackChannelConnection σ) (heap : Nat → UInt8)
    (s : FBackChannelOSCConnection σ Packet) (Msg : FBackChannelOSCMessage) (Now : ℚ) :
    FBackChannelOSCConnection σ Packet × Bool :=
  let Data := Msg.WriteToBuffer heap []
  SendPacketData T s Data Data.length Now

end FBackChannelOSCConnection

/-- Modelled from the spec: the constructor `FBackChannelOSCMessage(const TCHAR*)` used
for the heartbeat is declared in the header, which is not among the sources; the spec
gives a Write-mode message with address `/ping`, no tags and no arguments. -/
def PingMessage : FBackChannelOSCMessage :=
  (FBackChannelOSCMessage.Construct OSCPacketMode.Write).SetAddress [47, 112, 105, 110, 103]

/-- The state of the worker `Run`: the connection and the locals of the loop. -/
structure Worker (σ : Type) (Packet : Type) where
  Session : FBackChannelOSCConnection σ Packet
  Buffer : List UInt8
  ExpectedDataSize : Int
  ReceivedDataSize : Int

/-- What the environment does in one iteration of the loop: the bytes `ReceiveData`
stored (its return value is their number; a failed receive takes the same branch as an
empty one), and the clock readings of the iteration. -/
structure Poll where
  Incoming : List UInt8
  TimeNow : ℚ
  SendTime : ℚ

namespace Worker

variable {σ Packet : Type}

/-- The state of `Run` when it reaches the loop. -/
def Init (heap : Nat → UInt8) (s : FBackChannelOSCConnection σ Packet) (Now : ℚ) :
    Worker σ Packet :=
  let kDefaultBufferSize := 4096
  { Session := { s with LastActivityTime := Now, LastPingTime := Now },
    Buffer := AddUninitialized [] kDefaultBufferSize heap,
    ExpectedDataSize := 4,
    ReceivedDataSize := 0 }

/-- One iteration of the `while (ExitRequested == false)` loop of `Run`.
`CreateFromBuffer` is `FBackChannelOSCPacket::CreateFromBuffer`, whose source file is
not among the sources.  In the branch that received nothing `TimeNow` is
`const float TimeNow = FPlatformTime::Seconds()`, the subtractions `TimeNow - LastPingTime`
and `TimeNow - LastActivityTime` are made in `double`, and the second is stored in
`const float TimeSinceActivity`. -/
def RunIteration (T : IBackChannelConnection σ)
    (CreateFromBuffer : List UInt8 → Int → Option Packet) (heap : Nat → UInt8)
    (w : Worker σ Packet) (p : Poll) : Worker σ Packet :=
  let kPingTime : ℚ := 5
  let kTimeout : ℚ := 10
  let Received : Int := p.Incoming.length
  let Buffer := Memcpy w.Buffer w.ReceivedDataSize.toNat p.Incoming
  if Received > 0 then
    let Session := { w.Session with LastActivityTime := p.TimeNow }
    let ReceivedDataSize := w.ReceivedDataSize + Received
    if ReceivedDataSize = w.ExpectedDataSize then
      if w.ExpectedDataSize = 4 then
        let Size := Int32OfBytes Buffer
        let Buffer := if Size > Buffer.length
          then AddUninitialized Buffer (Size - Buffer.length).toNat heap else Buffer
        { Session := Session, Buffer := Buffer, ExpectedDataSize := Size, ReceivedDataSize := 0 }
      else
        let Session := match CreateFromBuffer Buffer w.ExpectedDataSize with
          | some Packet => { Session with ReceivedPackets := Session.ReceivedPackets ++ [Packet] }
          | none => Session
        { Session := Session, Buffer := Buffer, ExpectedDataSize := 4, ReceivedDataSize := 0 }
    else
      { w with Session := Session, Buffer := Buffer, ReceivedDataSize := ReceivedDataSize }
  else
    let TimeNow := ToFloat p.TimeNow
    let Session :=
      if ToDouble (TimeNow - w.Session.LastPingTime) ≥ kPingTime then
        let s := (w.Session.SendPacket T heap PingMessage p.SendTime).1
        { s with LastPingTime := TimeNow }
      else w.Session
    let TimeSinceActivity := ToFloat (ToDouble (TimeNow - Session.LastActivityTime))
    let Session :=
      if TimeSinceActivity ≥ kTimeout then { Session with ExitRequested := true } else Session
    { w with Session := Session, Buffer := Buffer }

/-- The loop of `Run` over the polls the environment supplies: it stops at the first
poll that finds `ExitRequested` set. -/
def RunLoop (T : IBackChannelConnection σ)
    (CreateFromBuffer : List UInt8 → Int → Option Packet) (heap : Nat → UInt8) :
    Worker σ Packet → List Poll → Worker σ Packet
  | w, [] => w
  | w, p :: ps =>
    if w.Session.ExitRequested then w
    else RunLoop T CreateFromBuffer heap (RunIteration T CreateFromBuffer heap w p) ps

end Worker

/-- A transport that records every `SendData` call and answers with the values of a
script (`0` once the script is used up). -/
structure Recorder where
  Calls : List (List UInt8)
  Script : List Int
deriving DecidableEq, Repr

def Recorder.Transport : IBackChannelConnection Recorder where
  SendData r bytes := ({ Calls := r.Calls ++ [bytes], Script := r.Script.tail }, r.Script.headD 0)

/-! ## Messages built in Write mode -/

/-- The messages a caller can build in Write mode: constructed, then any sequence of
`SetAddress`, `Serialize` and `SerializeString` calls. -/
inductive WriteBuilt : FBackChannelOSCMessage → Prop where
  | construct : WriteBuilt (FBackChannelOSCMessage.Construct OSCPacketMode.Write)
  | setAddress {m : FBackChannelOSCMessage} (InAddress : List UInt8) :
      WriteBuilt m → WriteBuilt (m.SetAddress InAddress)
  | serialize {m : FBackChannelOSCMessage} (heap : Nat → UInt8) (Code : UInt8)
      (InData : List UInt8) (InSize : Nat) :
      WriteBuilt m → WriteBuilt (m.Serialize heap Code InData InSize).Msg
  | serializeString {m : FBackChannelOSCMessage} (heap : Nat → UInt8) (Value : List UInt8) :
      WriteBuilt m → WriteBuilt (m.SerializeString heap Value).Msg

/-- A fixed-size typed field: its tag character and its bytes. -/
structure Field where
  Code : UInt8
  Bytes : List UInt8
deriving DecidableEq, Repr

/-- The calls `Serialize(f.Code, f.Bytes, sizeof f.Bytes)` for the fields in order. -/
def SerializeFields (heap : Nat → UInt8) (m : FBackChannelOSCMessage) :
    List Field → FBackChannelOSCMessage
  | [] => m
  | f :: fs => SerializeFields heap (m.Serialize heap f.Code f.Bytes f.Bytes.length).Msg fs

/-- A Write-mode message with the given address and fields. -/
def WriteMessage (heap : Nat → UInt8) (Address : List UInt8) (fields : List Field) :
    FBackChannelOSCMessage :=
  SerializeFields heap ((FBackChannelOSCMessage.Construct OSCPacketMode.Write).SetAddress Address)
    fields

/-- What every message built in Write mode satisfies. -/
structure WriteInvariant (m : FBackChannelOSCMessage) : Prop where
  mode : m.Mode = OSCPacketMode.Write
  cursor : m.BufferIndex = m.Buffer.length
  address : (0 : UInt8) ∉ m.Address
  tags : (0 : UInt8) ∉ m.TagString

/-- The calls `Serialize(Code, InData, sizeof InData)` for the requests in order, each
request being the tag asked for and the destination as it is before the call; the
result is the message after the last call and what each call left behind. -/
def ReadFields (heap : Nat → UInt8) (m : FBackChannelOSCMessage) :
    List (UInt8 × List UInt8) → FBackChannelOSCMessage × List Access
  | [] => (m, [])
  | q :: rest =>
    let a := m.Serialize heap q.1 q.2 q.2.length
    let r := ReadFields heap a.Msg rest
    (r.1, a :: r.2)

/-- What the spec says reading the fields back does, starting from message `m`: each
read copies as many bytes as its field has from the byte cursor, logs nothing, advances
the byte cursor by the padded size of the field and the tag cursor by one. -/
def ExpectedReads (m : FBackChannelOSCMessage) : List Field → List Access
  | [] => []
  | f :: fs =>
    let m1 := { m with BufferIndex := m.BufferIndex + RoundedArgumentSize f.Bytes.length,
                       TagIndex := m.TagIndex + 1 }
    { Msg := m1, Data := (m.Buffer.drop m.BufferIndex).take f.Bytes.length, Logged := none }
      :: ExpectedReads m1 fs

/-- The bytes `mem` are the fields in order, each followed by its padding. -/
inductive Packed : List Field → List UInt8 → Prop where
  | nil : Packed [] []
  | cons (f : Field) (pad : List UInt8) {fs : List Field} {rest : List UInt8} :
      pad.length = RoundedArgumentSize f.Bytes.length - f.Bytes.length →
      Packed fs rest → Packed (f :: fs) (f.Bytes ++ pad ++ rest)

/-- The cells of the tag section that `WriteToBuffer` never writes: those after the
terminator of the tag string, up to the end of the section. -/
def TagPadding (heap : Nat → UInt8) (m : FBackChannelOSCMessage) : List UInt8 :=
  (List.range' (RoundedArgumentSize (m.Address.length + 1) + (m.TagString.length + 2))
    (RoundedArgumentSize (m.TagString.length + 2) - (m.TagString.length + 2))).map heap

/-! ## The end of `Run`, `Start`, `Stop`, `DispatchMessages` -/

/-- A failed `check(...)`: the assertion stops the program. -/
inductive AssertionFailed where
  | check
deriving DecidableEq, Repr

/-- The method `Start`; `Thread` tells whether `FRunnableThread::Create` returned a
thread. -/
def FBackChannelOSCConnection.Start {σ Packet : Type} (s : FBackChannelOSCConnection σ Packet)
    (Thread : Bool) : Except AssertionFailed (FBackChannelOSCConnection σ Packet × Bool) :=
  if s.IsRunning ≠ false then Except.error AssertionFailed.check
  else
    let s := { s with ExitRequested := false }
    let s := if Thread then { s with IsRunning := true } else s
    Except.ok (s, Thread)

/-- The method `Stop`, the connection handle being `none` once released.  Its wait
`while (IsRunning)` ends when the worker, finding `ExitRequested` set, has left its loop
and cleared `IsRunning`; that exit of the worker is part of the call here. -/
def FBackChannelOSCConnection.Stop {τ Packet : Type}
    (s : FBackChannelOSCConnection (Option τ) Packet) :
    FBackChannelOSCConnection (Option τ) Packet :=
  let s := if s.IsRunning then { s with ExitRequested := true, IsRunning := false } else s
  { s with Connection := none }

/-- Modelled from the spec: the member initialisers of the connection are in its
header, which is not among the sources; the spec has a new session `Idle`, not started.
The constructor itself sets the two times to 0. -/
def FBackChannelOSCConnection.Construct {τ Packet : Type} (InConnection : τ) :
    FBackChannelOSCConnection (Option τ) Packet :=
  { Connection := some InConnection, IsRunning := false, ExitRequested := false,
    LastActivityTime := 0, LastPingTime := 0, ReceivedPackets := [] }

/-- What can happen to a session: a call of `Start` (with the outcome of the thread
creation), a call of `Stop`, the worker leaving `Run` by itself. -/
inductive Operation where
  | Start (Thread : Bool)
  | Stop
  | WorkerExit
deriving DecidableEq, Repr

def Operation.Apply {τ Packet : Type} (s : FBackChannelOSCConnection (Option τ) Packet) :
    Operation → Except AssertionFailed (FBackChannelOSCConnection (Option τ) Packet)
  | Operation.Start Thread => (s.Start Thread).map Prod.fst
  | Operation.Stop => Except.ok s.Stop
  | Operation.WorkerExit => Except.ok { s with IsRunning := false }

/-- The values of `IsConnected()` after each operation of a sequence, up to the first
failed assertion. -/
def Operation.Connected {τ Packet : Type} :
    FBackChannelOSCConnection (Option τ) Packet → List Operation → List Bool
  | _, [] => []
  | s, op :: ops =>
    match op.Apply s with
    | Except.ok s1 => s1.IsConnected :: Operation.Connected s1 ops
    | Except.error _ => []

/-- Modelled from the spec: the packet types are declared in a header that is not among
the sources; the spec has the variants Message and Bundle, Bundle never produced. -/
inductive OSCPacketType where
  | Message
  | Bundle
deriving DecidableEq, Repr

/-- Modelled from the spec: a packet is a message or a bundle (the packet class is not
among the sources). -/
inductive FBackChannelOSCPacket where
  | Message (Msg : FBackChannelOSCMessage)
  | Bundle
deriving DecidableEq, Repr

def FBackChannelOSCPacket.GetType : FBackChannelOSCPacket → OSCPacketType
  | FBackChannelOSCPacket.Message _ => OSCPacketType.Message
  | FBackChannelOSCPacket.Bundle => OSCPacketType.Bundle

/-- The method `DispatchMessages`; the dispatch map is external: `DispatchMap` is its
state and `DispatchMessage` its entry point. -/
def FBackChannelOSCConnection.DispatchMessages {σ δ : Type}
    (DispatchMessage : δ → FBackChannelOSCMessage → δ)
    (s : FBackChannelOSCConnection σ FBackChannelOSCPacket) (DispatchMap : δ) :
    FBackChannelOSCConnection σ FBackChannelOSCPacket × δ :=
  let DispatchMap := s.ReceivedPackets.foldl
    (fun d Packet =>
      if Packet.GetType = OSCPacketType.Message then
        match Packet with
        | FBackChannelOSCPacket.Message Msg => DispatchMessage d Msg
        | FBackChannelOSCPacket.Bundle => d
      else d)
    DispatchMap
  ({ s with ReceivedPackets := [] }, DispatchMap)

/-- The messages among the queued packets, in queue order. -/
def QueuedMessages : List FBackChannelOSCPacket → List FBackChannelOSCMessage
  | [] => []
  | FBackChannelOSCPacket.Message Msg :: rest => Msg :: QueuedMessages rest
  | FBackChannelOSCPacket.Bundle :: rest => QueuedMessages rest

/-! ## Heartbeats -/

/-- Indexes, from `OutBuffer.GetData()`, of the cells `WriteToBuffer` stores to, store
by store: `Strncpy` fills `kAddressLength` cells and zeroes the last of them, then the
terminator `pOutBuffer[kAddressLength]`, the characters of the tag string and their
terminator, the terminator `pOutBuffer[kTagLength]`, and the `BufferIndex` argument
bytes. -/
def FBackChannelOSCMessage.WriteToBufferStores (m : FBackChannelOSCMessage) : List Nat :=
  let pOutBuffer := 0
  let kAddressLength := RoundedArgumentSize (m.Address.length + 1)
  let kTagLength := RoundedArgumentSize (m.FinalTagString.length + 1)
  let s1 := List.range' pOutBuffer kAddressLength ++ [pOutBuffer + (kAddressLength - 1)]
  let s2 := [pOutBuffer + kAddressLength]
  let pOutBuffer := pOutBuffer + RoundedArgumentSize kAddressLength
  let s3 := List.range' pOutBuffer ((CStr m.FinalTagString).length + 1)
  let s4 := [pOutBuffer + kTagLength]
  let pOutBuffer := pOutBuffer + RoundedArgumentSize kTagLength
  let s5 := List.range' pOutBuffer m.BufferIndex
  s1 ++ s2 ++ s3 ++ s4 ++ s5

/-- The number of bytes the loop of `Run` asks `ReceiveData` for. -/
def Worker.Requested {σ Packet : Type} (w : Worker σ Packet) : Int :=
  w.ExpectedDataSize - w.ReceivedDataSize

/-- A session with the given connection and flags, both times 0 and an empty queue
(for concrete cases). -/
def SessionWith {σ Packet : Type} (c : σ) (IsRunning ExitRequested : Bool) :
    FBackChannelOSCConnection σ Packet :=
  { Connection := c, IsRunning := IsRunning, ExitRequested := ExitRequested,
    LastActivityTime := 0, LastPingTime := 0, ReceivedPackets := [] }

/-- What the loop of `Run` keeps true of its locals. -/
structure ScratchInvariant {σ Packet : Type} (w : Worker σ Packet) : Prop where
  received : 0 ≤ w.ReceivedDataSize
  expected : w.ExpectedDataSize ≤ w.Buffer.length
  size : 4096 ≤ w.Buffer.length

theorem RoundedArgumentSize_mod (n : Nat) : RoundedArgumentSize n % 4 = 0 := by
  unfold RoundedArgumentSize; omega

theorem le_RoundedArgumentSize (n : Nat) : n ≤ RoundedArgumentSize n := by
  unfold RoundedArgumentSize; omega

theorem RoundedArgumentSize_lt (n : Nat) : RoundedArgumentSize n < n + 4 := by
  unfold RoundedArgumentSize; omega

theorem RoundedArgumentSize_of_mod {n : Nat} (h : n % 4 = 0) : RoundedArgumentSize n = n := by
  unfold RoundedArgumentSize; omega

theorem RoundedArgumentSize_least {n k : Nat} (hk : k % 4 = 0) (h : n ≤ k) :
    RoundedArgumentSize n ≤ k := by
  unfold RoundedArgumentSize; omega

theorem RoundedArgumentSize_idem (n : Nat) :
    RoundedArgumentSize (RoundedArgumentSize n) = RoundedArgumentSize n :=
  RoundedArgumentSize_of_mod (RoundedArgumentSize_mod n)

/-! ## Lemmas: memory primitives -/

@[simp] theorem length_AddUninitialized (arr : List UInt8) (n : Nat) (heap : Nat → UInt8) :
    (AddUninitialized arr n heap).length = arr.length + n := by
  simp [AddUninitialized]

@[simp] theorem length_Memcpy (dst : List UInt8) (off : Nat) (src : List UInt8) :
    (Memcpy dst off src).length = dst.length := by
  induction src generalizing dst off with
  | nil => rfl
  | cons b bs ih => simp [Memcpy, ih]

theorem Memcpy_eq (dst : List UInt8) (off : Nat) (src : List UInt8)
    (h : off + src.length ≤ dst.length) :
    Memcpy dst off src = dst.take off ++ src ++ dst.drop (off + src.length) := by
  induction src generalizing dst off with
  | nil => simp [Memcpy]
  | cons b bs ih =>
    simp only [List.length_cons] at h
    have hlt : off < dst.length := by omega
    rw [Memcpy, ih _ _ (by simp; omega)]
    have h1 : (dst.set off b).take (off + 1) = dst.take off ++ [b] := by
      rw [List.set_eq_take_append_cons_drop, if_pos hlt, List.take_append_eq_append_take]
      have e : off + 1 - (List.take off dst).length = 1 := by
        rw [List.length_take]; omega
      rw [e, List.take_of_length_le (by rw [List.length_take]; omega)]
      rfl
    have h2 : (dst.set off b).drop (off + 1 + bs.length) = dst.drop (off + (bs.length + 1)) := by
      rw [List.drop_set_of_lt _ _ (by omega)]
      congr 1; omega
    rw [h1, h2]
    simp

theorem Memcpy_append (pre mid post src : List UInt8) (h : src.length = mid.length) :
    Memcpy (pre ++ mid ++ post) pre.length src = pre ++ src ++ post := by
  rw [Memcpy_eq _ _ _ (by simp; omega)]
  simp [h, List.take_append_eq_append_take, List.drop_append_eq_append_drop]

theorem CStr_of_not_mem {s : List UInt8} (h : (0 : UInt8) ∉ s) : CStr s = s := by
  unfold CStr
  rw [List.takeWhile_eq_self_iff]
  intro b hb
  simp only [bne_iff_ne, ne_eq]
  rintro rfl
  exact h hb

theorem CStr_append_zero (s rest : List UInt8) (h : (0 : UInt8) ∉ s) :
    CStr (s ++ 0 :: rest) = s := by
  unfold CStr
  induction s with
  | nil => simp [List.takeWhile]
  | cons a as ih =>
    have ha : a ≠ 0 := fun e => h (by simp [e])
    have has : (0 : UInt8) ∉ as := fun e => h (by simp [e])
    have ha2 : (a != 0) = true := by simpa using ha
    rw [List.cons_append, List.takeWhile_cons, ha2]
    simp only [if_true]
    rw [ih has]

theorem not_mem_CStr (s : List UInt8) : (0 : UInt8) ∉ CStr s := by
  unfold CStr
  intro h
  have := List.mem_takeWhile_imp h
  simp at this

theorem not_mem_AppendChar {s : List UInt8} (h : (0 : UInt8) ∉ s) (c : UInt8) :
    (0 : UInt8) ∉ AppendChar s c := by
  unfold AppendChar
  split
  · rename_i hc
    simp only [List.mem_append, List.mem_singleton, not_or]
    exact ⟨h, fun e => hc e.symm⟩
  · exact h

/-! ## Lemmas: messages built in Write mode -/

theorem WriteInvariant_SerializeWrite {m : FBackChannelOSCMessage} (h : WriteInvariant m)
    (heap : Nat → UInt8) (Code : UInt8) (InData : List UInt8) (InSize : Nat) :
    WriteInvariant (m.SerializeWrite heap Code InData InSize) := by
  refine ⟨h.mode, ?_, h.address, ?_⟩
  · simp [FBackChannelOSCMessage.SerializeWrite, h.cursor]
  · exact not_mem_AppendChar h.tags Code

theorem WriteBuilt.invariant {m : FBackChannelOSCMessage} (h : WriteBuilt m) :
    WriteInvariant m := by
  induction h with
  | construct => exact ⟨rfl, rfl, by simp [FBackChannelOSCMessage.Construct],
      by simp [FBackChannelOSCMessage.Construct]⟩
  | setAddress a _ ih => exact ⟨ih.mode, ih.cursor, not_mem_CStr a, ih.tags⟩
  | serialize heap Code InData InSize _ ih =>
    simp only [FBackChannelOSCMessage.Serialize, ih.mode]
    exact WriteInvariant_SerializeWrite ih heap Code InData InSize
  | serializeString heap Value _ ih =>
    simp only [FBackChannelOSCMessage.SerializeString, ih.mode]
    have h1 := WriteInvariant_SerializeWrite ih heap 115 (CStr Value ++ [0]) (Value.length + 1)
    exact ⟨h1.mode, by simpa using h1.cursor, h1.address, h1.tags⟩

theorem SerializeFields_built (heap : Nat → UInt8) {m : FBackChannelOSCMessage}
    (h : WriteBuilt m) (fields : List Field) : WriteBuilt (SerializeFields heap m fields) := by
  induction fields generalizing m with
  | nil => exact h
  | cons f fs ih => exact ih (WriteBuilt.serialize heap f.Code f.Bytes f.Bytes.length h)

theorem WriteMessage_built (heap : Nat → UInt8) (Address : List UInt8) (fields : List Field) :
    WriteBuilt (WriteMessage heap Address fields) :=
  SerializeFields_built heap (WriteBuilt.setAddress Address WriteBuilt.construct) fields

/-- The buffer after a field write in Write mode: the old buffer, the field's bytes,
then the padding cells, which nothing writes. -/
theorem SerializeWrite_Buffer {m : FBackChannelOSCMessage} (h : m.BufferIndex = m.Buffer.length)
    (heap : Nat → UInt8) (Code : UInt8) (data : List UInt8) :
    ∃ pad : List UInt8, pad.length = RoundedArgumentSize data.length - data.length ∧
      (m.SerializeWrite heap Code data data.length).Buffer = m.Buffer ++ data ++ pad := by
  have hle := le_RoundedArgumentSize data.length
  refine ⟨(AddUninitialized m.Buffer (RoundedArgumentSize data.length) heap).drop
    (m.Buffer.length + data.length), by simp; omega, ?_⟩
  simp only [FBackChannelOSCMessage.SerializeWrite, List.take_length, h]
  rw [Memcpy_eq _ _ _ (by simp; omega)]
  simp [AddUninitialized]

/-! ## Field writes (C10) -/

/-- C10: a field write of `S` bytes to a message built in Write mode grows the argument
buffer by exactly `S + ((4 - S % 4) % 4)` bytes; that amount is the least multiple of 4
that is at least `S` (it is `S` itself when `S` is a multiple of 4, never below `S` and
below `S + 4`); the old bytes stay and the first `S` bytes of the added region are the
field's bytes. -/
theorem Serialize_write_alignment (heap : Nat → UInt8) (m : FBackChannelOSCMessage)
    (hm : WriteBuilt m) (Code : UInt8) (data : List UInt8) :
    ((m.Serialize heap Code data data.length).Msg.Buffer.length
        = m.Buffer.length + (data.length + ((4 - data.length % 4) % 4)))
    ∧ (data.length + ((4 - data.length % 4) % 4)) % 4 = 0
    ∧ data.length ≤ data.length + ((4 - data.length % 4) % 4)
    ∧ data.length + ((4 - data.length % 4) % 4) < data.length + 4
    ∧ (∀ k : Nat, k % 4 = 0 → data.length ≤ k → data.length + ((4 - data.length % 4) % 4) ≤ k)
    ∧ (data.length % 4 = 0 → data.length + ((4 - data.length % 4) % 4) = data.length)
    ∧ (m.Serialize heap Code data data.length).Msg.Buffer.take m.Buffer.length = m.Buffer
    ∧ ((m.Serialize heap Code data data.length).Msg.Buffer.drop m.Buffer.length).take data.length
        = data := by
  have inv := hm.invariant
  obtain ⟨pad, hpad, hbuf⟩ := SerializeWrite_Buffer inv.cursor heap Code data
  have hle := le_RoundedArgumentSize data.length
  have hR : RoundedArgumentSize data.length = data.length + ((4 - data.length % 4) % 4) := rfl
  simp only [FBackChannelOSCMessage.Serialize, inv.mode, hbuf]
  refine ⟨?_, by omega, by omega, by omega, fun k hk hle => by omega, fun h => by omega, ?_, ?_⟩
  · simp only [List.length_append, hpad]; omega
  · rw [List.append_assoc, List.take_left']; rfl
  · rw [List.append_assoc, List.drop_left', List.take_left']; rfl; rfl

theorem Serialize_write_alignment_witness :
    WriteBuilt (FBackChannelOSCMessage.Construct OSCPacketMode.Write) ∧
    (((FBackChannelOSCMessage.Construct OSCPacketMode.Write).Serialize (fun _ => 205) 105
        [42, 0, 0] 3).Msg.Buffer.take 3 = [42, 0, 0]) :=
  ⟨WriteBuilt.construct,
   (Serialize_write_alignment (fun _ => 205) _ WriteBuilt.construct 105 [42, 0, 0]).2.2.2.2.2.2.2⟩

/-! ## Field reads with the wrong tag (C7) -/

/-- C7: in Read mode, when the tag cursor is at the end of the tag string or the tag at
the cursor differs from the requested one, `Serialize` logs its error record (the
TagMismatch condition), leaves the destination as it was and leaves the message, hence
both cursors, unchanged. -/
theorem Serialize_read_tag_mismatch (heap : Nat → UInt8) (m : FBackChannelOSCMessage)
    (hmode : m.Mode = OSCPacketMode.Read) (Code : UInt8) (InData : List UInt8) (InSize : Nat)
    (h : m.TagIndex = m.TagString.length ∨ m.CurrentTag ≠ Code) :
    ((m.Serialize heap Code InData InSize).Logged = some (OSCError.NoMoreTags Code)
      ∨ (m.Serialize heap Code InData InSize).Logged
          = some (OSCError.TagMismatch Code m.CurrentTag))
    ∧ (m.Serialize heap Code InData InSize).Data = InData
    ∧ (m.Serialize heap Code InData InSize).Msg = m
    ∧ (m.Serialize heap Code InData InSize).Msg.BufferIndex = m.BufferIndex
    ∧ (m.Serialize heap Code InData InSize).Msg.TagIndex = m.TagIndex := by
  simp only [FBackChannelOSCMessage.Serialize, hmode, FBackChannelOSCMessage.SerializeRead]
  by_cases h1 : m.TagIndex = m.TagString.length
  · simp [h1]
  · have h2 : m.CurrentTag ≠ Code := h.resolve_left h1
    simp [h1, h2]

theorem Serialize_read_tag_mismatch_witness :
    ({ Mode := OSCPacketMode.Read, Address := [], TagString := [105], TagIndex := 0,
       Buffer := [42, 0, 0, 0], BufferIndex := 0 } : FBackChannelOSCMessage).Mode
      = OSCPacketMode.Read
    ∧ ({ Mode := OSCPacketMode.Read, Address := [], TagString := [105], TagIndex := 0,
         Buffer := [42, 0, 0, 0], BufferIndex := 0 } : FBackChannelOSCMessage).CurrentTag ≠ 102
    ∧ (({ Mode := OSCPacketMode.Read, Address := [], TagString := [105], TagIndex := 0,
          Buffer := [42, 0, 0, 0], BufferIndex := 0 } : FBackChannelOSCMessage).Serialize
        (fun _ => 0) 102 [9, 9, 9, 9] 4).Data = [9, 9, 9, 9]
    ∧ (({ Mode := OSCPacketMode.Read, Address := [], TagString := [105], TagIndex := 0,
          Buffer := [42, 0, 0, 0], BufferIndex := 0 } : FBackChannelOSCMessage).Serialize
        (fun _ => 0) 102 [9, 9, 9, 9] 4).Msg
      = { Mode := OSCPacketMode.Read, Address := [], TagString := [105], TagIndex := 0,
          Buffer := [42, 0, 0, 0], BufferIndex := 0 } :=
  ⟨rfl, by decide,
   (Serialize_read_tag_mismatch (fun _ => 0)
      { Mode := OSCPacketMode.Read, Address := [], TagString := [105], TagIndex := 0,
        Buffer := [42, 0, 0, 0], BufferIndex := 0 } rfl 102 [9, 9, 9, 9] 4
      (Or.inr (by decide))).2.1,
   (Serialize_read_tag_mismatch (fun _ => 0)
      { Mode := OSCPacketMode.Read, Address := [], TagString := [105], TagIndex := 0,
        Buffer := [42, 0, 0, 0], BufferIndex := 0 } rfl 102 [9, 9, 9, 9] 4
      (Or.inr (by decide))).2.2.1⟩

/-! ## String fields (C9) -/

theorem set_terminator (pre s post : List UInt8) (x : UInt8) :
    (pre ++ (s ++ [x]) ++ post).set (pre.length + s.length) x = pre ++ (s ++ [x]) ++ post := by
  rw [List.append_assoc, List.set_append_right _ _ (by omega), Nat.add_sub_cancel_left,
    List.append_assoc, List.set_append_right _ _ (by omega), Nat.sub_self]
  simp

/-- C9: for a string `s` without a zero byte, writing it as a string field to a message
built in Write mode appends the tag `'s'` and grows the argument buffer by
`RoundedArgumentSize (len s + 1)` bytes that begin with the bytes of `s` and a zero
byte; reading a string field in Read mode at a cursor where the bytes of `s` and a zero
byte sit, the next tag being `'s'`, returns exactly `s`, advances the byte cursor by
`RoundedArgumentSize (len s + 1)` and the tag cursor by one. -/
theorem SerializeString_round_trip (heap : Nat → UInt8) (s : List UInt8)
    (hs : (0 : UInt8) ∉ s)
    (mw : FBackChannelOSCMessage) (hw : WriteBuilt mw)
    (mr : FBackChannelOSCMessage) (hr : mr.Mode = OSCPacketMode.Read)
    (htag : mr.CurrentTag = 115) (rest Value : List UInt8)
    (hbytes : mr.Buffer.drop mr.BufferIndex = s ++ 0 :: rest) :
    ((mw.SerializeString heap s).Msg.TagString = mw.TagString ++ [115]
      ∧ (mw.SerializeString heap s).Msg.Buffer.length
          = mw.Buffer.length + RoundedArgumentSize (s.length + 1)
      ∧ (mw.SerializeString heap s).Msg.Buffer.take mw.Buffer.length = mw.Buffer
      ∧ ((mw.SerializeString heap s).Msg.Buffer.drop mw.Buffer.length).take (s.length + 1)
          = s ++ [0])
    ∧ ((mr.SerializeString heap Value).Data = s
      ∧ (mr.SerializeString heap Value).Logged = none
      ∧ (mr.SerializeString heap Value).Msg.BufferIndex
          = mr.BufferIndex + RoundedArgumentSize (s.length + 1)
      ∧ (mr.SerializeString heap Value).Msg.TagIndex = mr.TagIndex + 1) := by
  constructor
  · have inv := hw.invariant
    have hlen : (s ++ [(0 : UInt8)]).length = s.length + 1 := by simp
    obtain ⟨pad, hpad, hbuf⟩ := SerializeWrite_Buffer inv.cursor heap 115 (s ++ [0])
    rw [hlen] at hbuf hpad
    have hle := le_RoundedArgumentSize (s.length + 1)
    simp only [FBackChannelOSCMessage.SerializeString, inv.mode, CStr_of_not_mem hs, hbuf,
      inv.cursor, set_terminator]
    refine ⟨?_, ?_, ?_, ?_⟩
    · simp [FBackChannelOSCMessage.SerializeWrite, AppendChar]
    · simp only [List.length_append, hpad, List.length_singleton]; omega
    · rw [List.append_assoc, List.take_left']; rfl
    · rw [List.append_assoc, List.drop_left' rfl, List.take_left' hlen]
  · have h1 : CStr (mr.Buffer.drop mr.BufferIndex) = s := by
      rw [hbytes]; exact CStr_append_zero s rest hs
    simp [FBackChannelOSCMessage.SerializeString, hr, htag, h1]

theorem SerializeString_round_trip_witness :
    ((0 : UInt8) ∉ ([104, 105] : List UInt8)) ∧
    WriteBuilt (FBackChannelOSCMessage.Construct OSCPacketMode.Write) ∧
    (({ Mode := OSCPacketMode.Read, Address := [], TagString := [115], TagIndex := 0,
        Buffer := [104, 105, 0, 7], BufferIndex := 0 } : FBackChannelOSCMessage).SerializeString
        (fun _ => 205) []).Data = [104, 105] :=
  ⟨by decide, WriteBuilt.construct,
   (SerializeString_round_trip (fun _ => 205) [104, 105] (by decide)
      (FBackChannelOSCMessage.Construct OSCPacketMode.Write) WriteBuilt.construct
      { Mode := OSCPacketMode.Read, Address := [], TagString := [115], TagIndex := 0,
        Buffer := [104, 105, 0, 7], BufferIndex := 0 } rfl (by decide) [7] [] (by decide)).2.1⟩

/-! ## Wire layout of `WriteToBuffer` -/

theorem Strncpy_block (A Ja rest : List UInt8) (kA : Nat) (hA0 : (0 : UInt8) ∉ A)
    (hkA : A.length < kA) (hJa : Ja.length = kA) :
    Strncpy (Ja ++ rest) 0 A kA = A ++ List.replicate (kA - A.length) 0 ++ rest := by
  have hcs : (CStr A).take kA = A := by
    rw [CStr_of_not_mem hA0, List.take_of_length_le (by omega)]
  obtain ⟨k, hk⟩ : ∃ k, kA - A.length = k + 1 := ⟨kA - A.length - 1, by omega⟩
  unfold Strncpy
  simp only [hcs]
  have h1 := Memcpy_append [] Ja rest (A ++ List.replicate (kA - A.length) 0)
    (by simp; omega)
  simp only [List.nil_append, List.length_nil] at h1
  rw [h1, hk, List.replicate_succ', ← List.append_assoc A]
  have hidx : 0 + (kA - 1) = (A ++ List.replicate k (0 : UInt8)).length := by
    simp; omega
  rw [hidx]
  have h2 := set_terminator [] (A ++ List.replicate k (0 : UInt8)) rest 0
  simp only [List.nil_append, List.length_nil, Nat.zero_add] at h2
  exact h2

theorem Strcpy_block (pre Jt post T : List UInt8) (hT0 : (0 : UInt8) ∉ T)
    (hJt : Jt.length = T.length + 2) :
    Strcpy (pre ++ Jt ++ post) pre.length (44 :: T) = pre ++ (44 :: T ++ [0]) ++ post := by
  have hcs : CStr (44 :: T) = 44 :: T := by
    apply CStr_of_not_mem
    simp only [List.mem_cons, not_or]
    exact ⟨by decide, hT0⟩
  unfold Strcpy
  rw [hcs]
  exact Memcpy_append pre Jt post _ (by simp; omega)

theorem layout_core (A T B Ja Jt Jp Jb : List UInt8) (kA kT : Nat)
    (hA0 : (0 : UInt8) ∉ A) (hT0 : (0 : UInt8) ∉ T) (hkA : A.length < kA)
    (hJa : Ja.length = kA) (hJt : Jt.length = T.length + 2)
    (hJp : Jp.length = kT - (T.length + 2)) (hkT : T.length + 2 ≤ kT)
    (hJb : Jb.length = B.length) :
    Memcpy ((Strcpy ((Strncpy (Ja ++ (Jt ++ (Jp ++ Jb))) 0 A kA).set (0 + kA) 0) (0 + kA)
        (44 :: T)).set (0 + kA + kT) 0) (0 + kA + kT) B
      = A ++ List.replicate (kA - A.length) 0 ++ (44 :: T ++ [0]) ++ Jp ++ B := by
  rw [Strncpy_block A Ja _ kA hA0 hkA hJa]
  generalize hblock : A ++ List.replicate (kA - A.length) (0 : UInt8) = block
  have hbl : block.length = kA := by
    rw [← hblock]; simp; omega
  simp only [Nat.zero_add]
  rw [List.set_append_right _ _ (by omega), hbl, Nat.sub_self, List.set_append_left 0 0
    (by omega : 0 < Jt.length), ← List.append_assoc block]
  have h3 := Strcpy_block block (Jt.set 0 0) (Jp ++ Jb) T hT0 (by simpa using hJt)
  rw [hbl] at h3
  rw [h3]
  generalize hpre : block ++ (44 :: T ++ [0]) = pre
  have hpl : (pre ++ Jp).length = kA + kT := by
    rw [← hpre]; simp [hbl, hJp]; omega
  rw [← List.append_assoc pre, List.set_append_right _ _ (by omega), hpl, Nat.sub_self]
  have h5 := Memcpy_append (pre ++ Jp) (Jb.set 0 0) [] B (by simp [hJb])
  rw [hpl] at h5
  simpa using h5

theorem AddUninitialized_nil (n : Nat) (heap : Nat → UInt8) :
    AddUninitialized [] n heap = (List.range' 0 n).map heap := by
  simp [AddUninitialized, List.range_eq_range']

theorem range'_add (s a b : Nat) : List.range' s (a + b) = List.range' s a ++ List.range' (s + a) b := by
  rw [Nat.add_comm a b, ← List.range'_append s a b 1, Nat.one_mul]

/-- The output of `WriteToBuffer` into a fresh array, for a message that satisfies the
Write-mode invariant: address, zero bytes up to the end of the address section, comma
and tags, one zero byte, the cells of the tag section nothing writes, the argument
buffer. -/
theorem WriteToBuffer_layout (heap : Nat → UInt8) (m : FBackChannelOSCMessage)
    (h : WriteInvariant m) :
    m.WriteToBuffer heap [] =
      m.Address ++ List.replicate (RoundedArgumentSize (m.Address.length + 1) - m.Address.length) 0
        ++ (44 :: m.TagString ++ [0]) ++ TagPadding heap m ++ m.Buffer := by
  have hkA := le_RoundedArgumentSize (m.Address.length + 1)
  have hkT := le_RoundedArgumentSize (m.TagString.length + 2)
  have hft : m.FinalTagString = 44 :: m.TagString := by
    simp [FBackChannelOSCMessage.FinalTagString, CStr_of_not_mem h.tags]
  have hsize : m.GetSize = RoundedArgumentSize (m.Address.length + 1) +
      ((m.TagString.length + 2) + ((RoundedArgumentSize (m.TagString.length + 2)
        - (m.TagString.length + 2)) + m.Buffer.length)) := by
    have h11 : m.TagString.length + 1 + 1 = m.TagString.length + 2 := rfl
    simp only [FBackChannelOSCMessage.GetSize, hft, h.cursor, List.length_cons, h11]
    omega
  have hJ : AddUninitialized [] m.GetSize heap =
      (List.range' 0 (RoundedArgumentSize (m.Address.length + 1))).map heap ++
      ((List.range' (RoundedArgumentSize (m.Address.length + 1)) (m.TagString.length + 2)).map heap
        ++ (TagPadding heap m ++
          (List.range' (RoundedArgumentSize (m.Address.length + 1) + (m.TagString.length + 2)
            + (RoundedArgumentSize (m.TagString.length + 2) - (m.TagString.length + 2)))
            m.Buffer.length).map heap)) := by
    rw [AddUninitialized_nil, hsize, range'_add 0, range'_add (0 + _) (m.TagString.length + 2),
      range'_add (0 + _ + _)]
    simp only [List.map_append, Nat.zero_add, TagPadding]
  have h11 : m.TagString.length + 1 + 1 = m.TagString.length + 2 := rfl
  unfold FBackChannelOSCMessage.WriteToBuffer
  simp only [hft, List.length_cons, RoundedArgumentSize_idem, h.cursor, List.take_length, hJ, h11]
  have key := layout_core m.Address m.TagString m.Buffer
    ((List.range' 0 (RoundedArgumentSize (m.Address.length + 1))).map heap)
    ((List.range' (RoundedArgumentSize (m.Address.length + 1)) (m.TagString.length + 2)).map heap)
    (TagPadding heap m)
    ((List.range' (RoundedArgumentSize (m.Address.length + 1) + (m.TagString.length + 2)
      + (RoundedArgumentSize (m.TagString.length + 2) - (m.TagString.length + 2)))
      m.Buffer.length).map heap)
    (RoundedArgumentSize (m.Address.length + 1)) (RoundedArgumentSize (m.TagString.length + 2))
    h.address h.tags (by omega) (by simp) (by simp) (by simp [TagPadding]) hkT (by simp)
  exact key

/-! ## Decoding a well-formed packet -/

theorem AnsiToTChar_append_zero (pre s rest : List UInt8) (hs : (0 : UInt8) ∉ s) :
    AnsiToTChar (pre ++ (s ++ 0 :: rest)) pre.length = Except.ok s := by
  unfold AnsiToTChar
  rw [List.drop_left' rfl, if_pos (by simp), CStr_append_zero s rest hs]

/-- Decoding a packet laid out as address, at least one zero byte up to a multiple of
four, comma and tags, a zero byte, padding up to a multiple of four, arguments. -/
theorem CreateFromBuffer_layout (A T pad B : List UInt8) (hA0 : (0 : UInt8) ∉ A)
    (hT0 : (0 : UInt8) ∉ T)
    (hpad : pad.length = RoundedArgumentSize (T.length + 2) - (T.length + 2)) :
    CreateFromBuffer
        (A ++ List.replicate (RoundedArgumentSize (A.length + 1) - A.length) 0
          ++ (44 :: T ++ [0]) ++ pad ++ B)
        ((RoundedArgumentSize (A.length + 1) + RoundedArgumentSize (T.length + 2) + B.length
          : Nat) : Int)
      = Except.ok (some { Mode := OSCPacketMode.Read, Address := A, TagString := T,
                          TagIndex := 0, Buffer := B, BufferIndex := 0 }) := by
  have hkA := le_RoundedArgumentSize (A.length + 1)
  have hkT := le_RoundedArgumentSize (T.length + 2)
  obtain ⟨k, hk⟩ : ∃ k, RoundedArgumentSize (A.length + 1) - A.length = k + 1 :=
    ⟨RoundedArgumentSize (A.length + 1) - A.length - 1, by omega⟩
  have hblock : (A ++ List.replicate (k + 1) (0 : UInt8)).length
      = RoundedArgumentSize (A.length + 1) := by
    simp; omega
  have h44 : (0 : UInt8) ∉ (44 :: T) := by
    simp only [List.mem_cons, not_or]
    exact ⟨by decide, hT0⟩
  have h1 : AnsiToTChar (A ++ List.replicate (k + 1) 0 ++ (44 :: T ++ [0]) ++ pad ++ B) 0
      = Except.ok A := by
    have := AnsiToTChar_append_zero [] A
      (List.replicate k 0 ++ (44 :: T ++ [0]) ++ pad ++ B) hA0
    simpa [List.replicate_succ] using this
  have h2 : AnsiToTChar (A ++ List.replicate (k + 1) 0 ++ (44 :: T ++ [0]) ++ pad ++ B)
      (RoundedArgumentSize (A.length + 1)) = Except.ok (44 :: T) := by
    have := AnsiToTChar_append_zero (A ++ List.replicate (k + 1) 0) (44 :: T) (pad ++ B) h44
    rw [hblock] at this
    simpa using this
  have h3 : RightChop (44 :: T) (FindComma (44 :: T) + 1) = T := by
    simp [RightChop, FindComma]
  have h11 : T.length + 1 + 1 = T.length + 2 := rfl
  have hdrop : (A ++ List.replicate (k + 1) 0 ++ (44 :: T ++ [0]) ++ pad ++ B).drop
      (RoundedArgumentSize (A.length + 1) + RoundedArgumentSize (T.length + 2)) = B := by
    apply List.drop_left'
    simp only [List.length_append, hblock, hpad, List.length_cons, List.length_nil]
    omega
  have hlen : (A ++ List.replicate (k + 1) 0 ++ (44 :: T ++ [0]) ++ pad ++ B).length
      = RoundedArgumentSize (A.length + 1) + RoundedArgumentSize (T.length + 2) + B.length := by
    simp only [List.length_append, hblock, hpad, List.length_cons, List.length_nil]
    omega
  rw [hk]
  unfold CreateFromBuffer
  simp only [FBackChannelOSCMessage.Construct, h1, h2, h3, h11, hdrop, hlen, List.length_cons,
    bind, Except.bind, pure, Except.pure]
  simp

theorem GetSize_of_invariant {m : FBackChannelOSCMessage} (h : WriteInvariant m) :
    m.GetSize = RoundedArgumentSize (m.Address.length + 1)
      + RoundedArgumentSize (m.TagString.length + 2) + m.Buffer.length := by
  have h11 : m.TagString.length + 1 + 1 = m.TagString.length + 2 := rfl
  simp [FBackChannelOSCMessage.GetSize, FBackChannelOSCMessage.FinalTagString,
    CStr_of_not_mem h.tags, h.cursor, h11]

/-- Encoding a message that satisfies the Write-mode invariant and decoding the result
gives back its address, its tag string and its argument buffer. -/
theorem CreateFromBuffer_WriteToBuffer (heapOut : Nat → UInt8) (m : FBackChannelOSCMessage)
    (h : WriteInvariant m) :
    CreateFromBuffer (m.WriteToBuffer heapOut []) (m.GetSize : Int)
      = Except.ok (some { Mode := OSCPacketMode.Read, Address := m.Address,
                          TagString := m.TagString, TagIndex := 0, Buffer := m.Buffer,
                          BufferIndex := 0 }) := by
  rw [WriteToBuffer_layout heapOut m h, GetSize_of_invariant h]
  exact CreateFromBuffer_layout m.Address m.TagString (TagPadding heapOut m) m.Buffer
    h.address h.tags (by simp [TagPadding])

theorem SerializeFields_Address (heap : Nat → UInt8) (m : FBackChannelOSCMessage)
    (hm : m.Mode = OSCPacketMode.Write) (fields : List Field) :
    (SerializeFields heap m fields).Address = m.Address := by
  induction fields generalizing m with
  | nil => rfl
  | cons f fs ih =>
    have e : (m.Serialize heap f.Code f.Bytes f.Bytes.length).Msg
        = m.SerializeWrite heap f.Code f.Bytes f.Bytes.length := by
      simp [FBackChannelOSCMessage.Serialize, hm]
    rw [SerializeFields, e, ih (m.SerializeWrite heap f.Code f.Bytes f.Bytes.length) hm]
    rfl

theorem SerializeFields_TagString (heap : Nat → UInt8) (m : FBackChannelOSCMessage)
    (hm : m.Mode = OSCPacketMode.Write) (fields : List Field)
    (ht : ∀ f ∈ fields, f.Code ≠ 0) :
    (SerializeFields heap m fields).TagString = m.TagString ++ fields.map Field.Code := by
  induction fields generalizing m with
  | nil => simp [SerializeFields]
  | cons f fs ih =>
    have e : (m.Serialize heap f.Code f.Bytes f.Bytes.length).Msg
        = m.SerializeWrite heap f.Code f.Bytes f.Bytes.length := by
      simp [FBackChannelOSCMessage.Serialize, hm]
    have hf : f.Code ≠ 0 := ht f (List.mem_cons_self _ _)
    rw [SerializeFields, e, ih (m.SerializeWrite heap f.Code f.Bytes f.Bytes.length) hm
      (fun g hg => ht g (List.mem_cons_of_mem _ hg))]
    simp [FBackChannelOSCMessage.SerializeWrite, AppendChar, hf]

/-- Decoding the encoding of `WriteMessage`. -/
theorem CreateFromBuffer_WriteToBuffer_decoded (heap heapOut : Nat → UInt8)
    (Address : List UInt8) (fields : List Field)
    (hA : (0 : UInt8) ∉ Address) (hT : ∀ f ∈ fields, f.Code ≠ 0) :
    CreateFromBuffer ((WriteMessage heap Address fields).WriteToBuffer heapOut [])
        ((WriteMessage heap Address fields).GetSize : Int)
      = Except.ok (some { Mode := OSCPacketMode.Read, Address := Address,
                          TagString := fields.map Field.Code, TagIndex := 0,
                          Buffer := (WriteMessage heap Address fields).Buffer,
                          BufferIndex := 0 }) := by
  have hb := (WriteMessage_built heap Address fields).invariant
  have h1 : (WriteMessage heap Address fields).Address = Address := by
    rw [WriteMessage, SerializeFields_Address heap _ rfl]
    exact CStr_of_not_mem hA
  have h2 : (WriteMessage heap Address fields).TagString = fields.map Field.Code := by
    rw [WriteMessage, SerializeFields_TagString heap _ rfl fields hT]
    rfl
  rw [CreateFromBuffer_WriteToBuffer heapOut _ hb, h1, h2]

/-! ## Round trip of the codec (C1) -/

/-- C1 fails for a field whose tag character is the zero character: `Serialize` in
Write mode stores the four bytes of the field but `TagString += Code` appends nothing,
so the message `/t` with the one field `(0, [42, 0, 0, 0])` decodes to a message with
the original address and argument buffer and an empty tag string, which is not the
original tag sequence `[0]`. -/
theorem CreateFromBuffer_WriteToBuffer_zero_tag_counterexample :
    CreateFromBuffer
        ((WriteMessage (fun _ => 205) [47, 116]
          [{ Code := 0, Bytes := [42, 0, 0, 0] }]).WriteToBuffer (fun _ => 205) [])
        ((WriteMessage (fun _ => 205) [47, 116]
          [{ Code := 0, Bytes := [42, 0, 0, 0] }]).GetSize : Int)
      = Except.ok (some { Mode := OSCPacketMode.Read, Address := [47, 116], TagString := [],
                          TagIndex := 0, Buffer := [42, 0, 0, 0], BufferIndex := 0 })
    ∧ ([] : List UInt8) ≠ [({ Code := 0, Bytes := [42, 0, 0, 0] } : Field)].map Field.Code
    ∧ ((0 : UInt8) ∉ ([47, 116] : List UInt8)) := by
  refine ⟨by rfl, by decide, by decide⟩

/-- C1, amended: for every address without a zero byte and every sequence of fixed-size
typed fields whose tag characters are not the zero character, `WriteToBuffer`
gives `GetSize` bytes, and decoding them with `CreateFromBuffer`, with length
`GetSize`, yields a Read-mode message whose address is the original address, whose tag
string is the original tag sequence in order, and whose argument buffer is the original
argument buffer byte for byte. -/
theorem CreateFromBuffer_WriteToBuffer_round_trip (heap heapOut : Nat → UInt8)
    (Address : List UInt8) (fields : List Field)
    (hA : (0 : UInt8) ∉ Address) (hT : ∀ f ∈ fields, f.Code ≠ 0) :
    ((WriteMessage heap Address fields).WriteToBuffer heapOut []).length
        = (WriteMessage heap Address fields).GetSize
    ∧ ∃ r : FBackChannelOSCMessage,
      CreateFromBuffer ((WriteMessage heap Address fields).WriteToBuffer heapOut [])
          ((WriteMessage heap Address fields).GetSize : Int) = Except.ok (some r)
      ∧ r.Mode = OSCPacketMode.Read
      ∧ r.Address = Address
      ∧ r.Address = (WriteMessage heap Address fields).Address
      ∧ r.TagString = fields.map Field.Code
      ∧ r.TagString = (WriteMessage heap Address fields).TagString
      ∧ r.Buffer = (WriteMessage heap Address fields).Buffer := by
  have hb := (WriteMessage_built heap Address fields).invariant
  have h1 : (WriteMessage heap Address fields).Address = Address := by
    rw [WriteMessage, SerializeFields_Address heap _ rfl]
    exact CStr_of_not_mem hA
  have h2 : (WriteMessage heap Address fields).TagString = fields.map Field.Code := by
    rw [WriteMessage, SerializeFields_TagString heap _ rfl fields hT]
    rfl
  constructor
  · simp [FBackChannelOSCMessage.WriteToBuffer, Strcpy, Strncpy]
  · exact ⟨_, CreateFromBuffer_WriteToBuffer_decoded heap heapOut Address fields hA hT,
      rfl, rfl, h1.symm, rfl, h2.symm, rfl⟩

theorem CreateFromBuffer_WriteToBuffer_round_trip_witness :
    ((0 : UInt8) ∉ ([47, 116, 101, 115, 116] : List UInt8)) ∧
    (∀ f ∈ [({ Code := 105, Bytes := [42, 0, 0, 0] } : Field)], f.Code ≠ 0) ∧
    ((WriteMessage (fun _ => 205) [47, 116, 101, 115, 116]
        [{ Code := 105, Bytes := [42, 0, 0, 0] }]).WriteToBuffer (fun _ => 205) []).length
      = (WriteMessage (fun _ => 205) [47, 116, 101, 115, 116]
          [{ Code := 105, Bytes := [42, 0, 0, 0] }]).GetSize :=
  ⟨by decide, by decide,
   (CreateFromBuffer_WriteToBuffer_round_trip (fun _ => 205) (fun _ => 205)
     [47, 116, 101, 115, 116] [{ Code := 105, Bytes := [42, 0, 0, 0] }] (by decide)
     (by decide)).1⟩

/-! ## Lemmas: what `CreateFromBuffer` returns -/

theorem AnsiToTChar_ok {Data : List UInt8} {off : Nat} {s : List UInt8}
    (h : AnsiToTChar Data off = Except.ok s) :
    (0 : UInt8) ∈ Data.drop off ∧ s = CStr (Data.drop off) := by
  unfold AnsiToTChar at h
  split at h
  · rename_i hmem
    exact ⟨hmem, by injection h with h; exact h.symm⟩
  · cases h

/-- The three ways `CreateFromBuffer` can go once both scans have found a terminator. -/
theorem CreateFromBuffer_of_scans {Data : List UInt8} (DataLength : Int) {A T : List UInt8}
    (hA : AnsiToTChar Data 0 = Except.ok A)
    (hT : AnsiToTChar Data (RoundedArgumentSize (A.length + 1)) = Except.ok T) :
    CreateFromBuffer Data DataLength =
      if DataLength - ((RoundedArgumentSize (A.length + 1)
          + RoundedArgumentSize (T.length + 1) : Nat) : Int) < 0 then
        Except.error (Undefined.NegativeCount (DataLength - ((RoundedArgumentSize (A.length + 1)
          + RoundedArgumentSize (T.length + 1) : Nat) : Int)))
      else if Data.length < RoundedArgumentSize (A.length + 1)
          + RoundedArgumentSize (T.length + 1)
          + (DataLength - ((RoundedArgumentSize (A.length + 1)
              + RoundedArgumentSize (T.length + 1) : Nat) : Int)).toNat then
        Except.error Undefined.ReadOutsideMemory
      else
        Except.ok (some
          { Mode := OSCPacketMode.Read, Address := A,
            TagString := RightChop T (FindComma T + 1), TagIndex := 0,
            Buffer := (Data.drop (RoundedArgumentSize (A.length + 1)
              + RoundedArgumentSize (T.length + 1))).take
                (DataLength - ((RoundedArgumentSize (A.length + 1)
                  + RoundedArgumentSize (T.length + 1) : Nat) : Int)).toNat,
            BufferIndex := 0 }) := by
  unfold CreateFromBuffer
  simp only [hA, hT, FBackChannelOSCMessage.Construct, bind, Except.bind, pure, Except.pure]

/-- `CreateFromBuffer` has no path that returns a null pointer. -/
theorem CreateFromBuffer_ne_null (Data : List UInt8) (DataLength : Int) :
    CreateFromBuffer Data DataLength ≠ Except.ok none := by
  cases hA : AnsiToTChar Data 0 with
  | error e => simp [CreateFromBuffer, hA, bind, Except.bind]
  | ok A =>
    cases hT : AnsiToTChar Data (RoundedArgumentSize (A.length + 1)) with
    | error e =>
      simp [CreateFromBuffer, hA, hT, bind, Except.bind, FBackChannelOSCMessage.Construct]
    | ok T =>
      rw [CreateFromBuffer_of_scans DataLength hA hT]
      split
      · simp
      · split <;> simp

/-- What every message returned by `CreateFromBuffer` satisfies. -/
theorem CreateFromBuffer_some {Data : List UInt8} {DataLength : Int}
    {m : FBackChannelOSCMessage} (h : CreateFromBuffer Data DataLength = Except.ok (some m)) :
    m.Mode = OSCPacketMode.Read ∧ m.TagIndex = 0 ∧ m.BufferIndex = 0
      ∧ (0 : UInt8) ∉ m.Address ∧ (0 : UInt8) ∉ m.TagString := by
  cases hA : AnsiToTChar Data 0 with
  | error e => simp [CreateFromBuffer, hA, bind, Except.bind] at h
  | ok A =>
    cases hT : AnsiToTChar Data (RoundedArgumentSize (A.length + 1)) with
    | error e =>
      simp [CreateFromBuffer, hA, hT, bind, Except.bind, FBackChannelOSCMessage.Construct] at h
    | ok T =>
      rw [CreateFromBuffer_of_scans DataLength hA hT] at h
      have hA0 : (0 : UInt8) ∉ A := by
        rw [(AnsiToTChar_ok hA).2]; exact not_mem_CStr _
      have hT0 : (0 : UInt8) ∉ T := by
        rw [(AnsiToTChar_ok hT).2]; exact not_mem_CStr _
      split at h
      · cases h
      · split at h
        · cases h
        · injection h with h
          injection h with h
          subst h
          refine ⟨rfl, rfl, rfl, hA0, ?_⟩
          intro hmem
          exact hT0 (List.mem_of_mem_drop hmem)

theorem CStr_split {L : List UInt8} (h : (0 : UInt8) ∈ L) : ∃ rest, L = CStr L ++ 0 :: rest := by
  induction L with
  | nil => cases h
  | cons a as ih =>
    by_cases ha : a = 0
    · subst ha
      exact ⟨as, by simp [CStr]⟩
    · have hmem : (0 : UInt8) ∈ as := by
        rcases List.mem_cons.mp h with h | h
        · exact absurd h.symm ha
        · exact h
      obtain ⟨rest, hrest⟩ := ih hmem
      refine ⟨rest, ?_⟩
      have ha2 : (a != 0) = true := by simpa using ha
      unfold CStr at hrest ⊢
      rw [List.takeWhile_cons, ha2]
      simp only [if_true, List.cons_append]
      rw [← hrest]

/-- A string with no terminator among the first `n` bytes scanned is at least `n`
characters long. -/
theorem le_length_of_unterminated {Data : List UInt8} {off n : Nat} {s : List UInt8}
    (h : AnsiToTChar Data off = Except.ok s) (hun : (0 : UInt8) ∉ (Data.drop off).take n) :
    n ≤ s.length := by
  obtain ⟨hmem, hs⟩ := AnsiToTChar_ok h
  obtain ⟨rest, hrest⟩ := CStr_split hmem
  rw [← hs] at hrest
  by_contra hlt
  apply hun
  obtain ⟨k, hk⟩ : ∃ k, n - s.length = k + 1 := ⟨n - s.length - 1, by omega⟩
  rw [hrest, List.take_append_eq_append_take, hk]
  simp

/-! ## Wire layout: the padding of the tag section (C2) -/

/-- C2: at address `/test` with one int32 field (tag `i`, value 42), when the cells the
allocator hands out hold `0xCD`, `WriteToBuffer` returns 16 bytes whose twelfth byte,
the padding byte of the tag section after `",i\0"`, is still `0xCD`: `Strcpy` stops at
the terminator and nothing else writes that cell, so the padding is not zero. -/
theorem WriteToBuffer_tag_padding_unwritten :
    (WriteMessage (fun _ => 205) [47, 116, 101, 115, 116]
        [{ Code := 105, Bytes := [42, 0, 0, 0] }]).WriteToBuffer (fun _ => 205) []
      = [47, 116, 101, 115, 116, 0, 0, 0, 44, 105, 0, 205, 42, 0, 0, 0] := by
  decide

/-! ## `GetSize` (C5) -/

/-- C5 fails for a message produced by `CreateFromBuffer`: decoding the 16-byte packet
of `/test` with one int32 field gives a message whose argument buffer holds 4 bytes,
so the claimed size is 8 + 4 + 4 = 16, while `GetSize` returns 12: it adds the byte
cursor, which is 0 after decoding, not the length of the argument buffer. -/
theorem GetSize_decoded_counterexample :
    CreateFromBuffer [47, 116, 101, 115, 116, 0, 0, 0, 44, 105, 0, 0, 42, 0, 0, 0] 16
      = Except.ok (some { Mode := OSCPacketMode.Read, Address := [47, 116, 101, 115, 116],
                          TagString := [105], TagIndex := 0, Buffer := [42, 0, 0, 0],
                          BufferIndex := 0 })
    ∧ ({ Mode := OSCPacketMode.Read, Address := [47, 116, 101, 115, 116],
         TagString := [105], TagIndex := 0, Buffer := [42, 0, 0, 0],
         BufferIndex := 0 } : FBackChannelOSCMessage).GetSize = 12
    ∧ RoundedArgumentSize (([47, 116, 101, 115, 116] : List UInt8).length + 1)
        + RoundedArgumentSize (((44 :: [105]) : List UInt8).length + 1)
        + ([42, 0, 0, 0] : List UInt8).length = 16 :=
  ⟨by rfl, by decide, by decide⟩

/-- C5, amended: `GetSize` is the padded length of the address and its terminator, plus
the padded length of the comma, the tag string and its terminator, plus the byte cursor.
For every message built in Write mode the byte cursor is the length of the argument
buffer, so `GetSize` is the padded address, the padded tag section and the length of the
argument buffer; for a message returned by `CreateFromBuffer` the byte cursor is 0, so
`GetSize` counts the two header sections only. -/
theorem GetSize_by_mode (m : FBackChannelOSCMessage) :
    ((0 : UInt8) ∉ m.TagString →
      m.GetSize = RoundedArgumentSize (m.Address.length + 1)
        + RoundedArgumentSize ((44 :: m.TagString).length + 1) + m.BufferIndex)
    ∧ (WriteBuilt m →
      m.GetSize = RoundedArgumentSize (m.Address.length + 1)
        + RoundedArgumentSize ((44 :: m.TagString).length + 1) + m.Buffer.length)
    ∧ (∀ (Data : List UInt8) (DataLength : Int),
        CreateFromBuffer Data DataLength = Except.ok (some m) →
        m.GetSize = RoundedArgumentSize (m.Address.length + 1)
          + RoundedArgumentSize ((44 :: m.TagString).length + 1) + m.BufferIndex
        ∧ m.BufferIndex = 0) := by
  refine ⟨?_, ?_, ?_⟩
  · intro hT0
    simp [FBackChannelOSCMessage.GetSize, FBackChannelOSCMessage.FinalTagString,
      CStr_of_not_mem hT0]
  · intro hb
    rw [GetSize_of_invariant hb.invariant]
    rfl
  · intro Data DataLength h
    obtain ⟨_, _, hidx, _, hT0⟩ := CreateFromBuffer_some h
    refine ⟨?_, hidx⟩
    simp [FBackChannelOSCMessage.GetSize, FBackChannelOSCMessage.FinalTagString,
      CStr_of_not_mem hT0]

theorem GetSize_by_mode_witness :
    WriteBuilt (WriteMessage (fun _ => 205) [47, 116, 101, 115, 116]
      [{ Code := 105, Bytes := [42, 0, 0, 0] }])
    ∧ (WriteMessage (fun _ => 205) [47, 116, 101, 115, 116]
        [{ Code := 105, Bytes := [42, 0, 0, 0] }]).GetSize = 8 + 4 + 4
    ∧ CreateFromBuffer [47, 116, 101, 115, 116, 0, 0, 0, 44, 105, 0, 0, 42, 0, 0, 0] 16
        = Except.ok (some { Mode := OSCPacketMode.Read, Address := [47, 116, 101, 115, 116],
                            TagString := [105], TagIndex := 0, Buffer := [42, 0, 0, 0],
                            BufferIndex := 0 })
    ∧ ({ Mode := OSCPacketMode.Read, Address := [47, 116, 101, 115, 116],
         TagString := [105], TagIndex := 0, Buffer := [42, 0, 0, 0],
         BufferIndex := 0 } : FBackChannelOSCMessage).GetSize = 8 + 4 + 0 :=
  ⟨WriteMessage_built _ _ _,
   (GetSize_by_mode _).2.1 (WriteMessage_built _ _ _),
   by rfl,
   ((GetSize_by_mode _).2.2 [47, 116, 101, 115, 116, 0, 0, 0, 44, 105, 0, 0, 42, 0, 0, 0] 16
      (by rfl)).1⟩

/-! ## Decoding a packet with a missing terminator (C6) -/

/-- C6 fails: the address `/abc` has no zero byte among the first 3 bytes, yet
`CreateFromBuffer` with length 3 does not return a null pointer (it goes on to call
`AddUninitialized` with the count -9), and its address scan loads the byte at index 4,
beyond the declared length. -/
theorem CreateFromBuffer_unterminated_counterexample :
    ((0 : UInt8) ∉ ([47, 97, 98, 99, 0, 0, 0, 0, 44, 0, 0, 0] : List UInt8).take 3)
    ∧ CreateFromBuffer [47, 97, 98, 99, 0, 0, 0, 0, 44, 0, 0, 0] 3
        = Except.error (Undefined.NegativeCount (-9))
    ∧ CreateFromBuffer [47, 97, 98, 99, 0, 0, 0, 0, 44, 0, 0, 0] 3 ≠ Except.ok none
    ∧ 4 ∈ CreateFromBufferScanReads [47, 97, 98, 99, 0, 0, 0, 0, 44, 0, 0, 0]
    ∧ ¬ ((4 : Int) < 3) :=
  ⟨by decide, by rfl, CreateFromBuffer_ne_null _ _, by decide, by decide⟩

/-- C6, amended: when the address, or the tag string that follows it, has no zero
terminator within the first `DataLength` bytes, the terminators lying further on in the
memory behind `Data`, `CreateFromBuffer` does not fail with a null result (it has no
such path): its scans run to the terminator whatever the length, so they load a byte at
an index `≥ DataLength`, and the argument length it computes, `DataLength` minus the
bytes consumed, is negative and is what `AddUninitialized` is called with. -/
theorem CreateFromBuffer_unterminated (Data : List UInt8) (DataLength : Int)
    (A T : List UInt8) (hA : AnsiToTChar Data 0 = Except.ok A)
    (hT : AnsiToTChar Data (RoundedArgumentSize (A.length + 1)) = Except.ok T)
    (hun : (0 : UInt8) ∉ Data.take DataLength.toNat
      ∨ (0 : UInt8) ∉ (Data.drop (RoundedArgumentSize (A.length + 1))).take
          (DataLength.toNat - RoundedArgumentSize (A.length + 1))) :
    CreateFromBuffer Data DataLength ≠ Except.ok none
    ∧ (∃ i ∈ CreateFromBufferScanReads Data, DataLength ≤ (i : Int))
    ∧ DataLength - ((RoundedArgumentSize (A.length + 1)
        + RoundedArgumentSize (T.length + 1) : Nat) : Int) < 0
    ∧ CreateFromBuffer Data DataLength
        = Except.error (Undefined.NegativeCount (DataLength - ((RoundedArgumentSize (A.length + 1)
            + RoundedArgumentSize (T.length + 1) : Nat) : Int))) := by
  have hkA := le_RoundedArgumentSize (A.length + 1)
  have hkT := le_RoundedArgumentSize (T.length + 1)
  have hAeq : CStr Data = A := by
    have := (AnsiToTChar_ok hA).2
    simpa using this.symm
  have hTeq : CStr (Data.drop (RoundedArgumentSize (A.length + 1))) = T :=
    (AnsiToTChar_ok hT).2.symm
  have hbound : DataLength.toNat ≤ A.length
      ∨ DataLength.toNat - RoundedArgumentSize (A.length + 1) ≤ T.length := by
    rcases hun with h | h
    · exact Or.inl (le_length_of_unterminated hA (by simpa using h))
    · exact Or.inr (le_length_of_unterminated hT h)
  have hneg : DataLength - ((RoundedArgumentSize (A.length + 1)
      + RoundedArgumentSize (T.length + 1) : Nat) : Int) < 0 := by
    rcases hbound with h | h <;> omega
  refine ⟨CreateFromBuffer_ne_null _ _, ?_, hneg, ?_⟩
  · simp only [CreateFromBufferScanReads, hAeq, hTeq, List.mem_append, List.mem_range'_1]
    rcases hbound with h | h
    · exact ⟨A.length, Or.inl ⟨by omega, by omega⟩, by omega⟩
    · exact ⟨RoundedArgumentSize (A.length + 1) + T.length, Or.inr ⟨by omega, by omega⟩,
        by omega⟩
  · rw [CreateFromBuffer_of_scans DataLength hA hT, if_pos hneg]

theorem CreateFromBuffer_unterminated_witness :
    AnsiToTChar [47, 97, 0, 0, 44, 105, 105, 105, 0, 0, 0, 0] 0 = Except.ok [47, 97]
    ∧ AnsiToTChar [47, 97, 0, 0, 44, 105, 105, 105, 0, 0, 0, 0]
        (RoundedArgumentSize (([47, 97] : List UInt8).length + 1)) = Except.ok [44, 105, 105, 105]
    ∧ CreateFromBuffer [47, 97, 0, 0, 44, 105, 105, 105, 0, 0, 0, 0] 7
        = Except.error (Undefined.NegativeCount (7 - ((RoundedArgumentSize
            (([47, 97] : List UInt8).length + 1)
            + RoundedArgumentSize (([44, 105, 105, 105] : List UInt8).length + 1) : Nat) : Int))) :=
  ⟨by rfl, by rfl,
   (CreateFromBuffer_unterminated [47, 97, 0, 0, 44, 105, 105, 105, 0, 0, 0, 0] 7
      [47, 97] [44, 105, 105, 105] (by rfl) (by rfl) (Or.inr (by decide))).2.2.2⟩

/-! ## Reading the fields back (C8) -/

theorem SerializeFields_Buffer (heap : Nat → UInt8) (m : FBackChannelOSCMessage)
    (h : WriteInvariant m) (fields : List Field) :
    ∃ tail, (SerializeFields heap m fields).Buffer = m.Buffer ++ tail ∧ Packed fields tail := by
  induction fields generalizing m with
  | nil => exact ⟨[], by simp [SerializeFields], Packed.nil⟩
  | cons f fs ih =>
    have e : (m.Serialize heap f.Code f.Bytes f.Bytes.length).Msg
        = m.SerializeWrite heap f.Code f.Bytes f.Bytes.length := by
      simp [FBackChannelOSCMessage.Serialize, h.mode]
    obtain ⟨pad, hpad, hbuf⟩ := SerializeWrite_Buffer h.cursor heap f.Code f.Bytes
    obtain ⟨tail, htail, hp⟩ := ih (m.SerializeWrite heap f.Code f.Bytes f.Bytes.length)
      (WriteInvariant_SerializeWrite h heap f.Code f.Bytes f.Bytes.length)
    refine ⟨f.Bytes ++ pad ++ tail, ?_, Packed.cons f pad hpad hp⟩
    rw [SerializeFields, e, htail, hbuf]
    simp

theorem Packed_cons_inv {f : Field} {fs : List Field} {mem : List UInt8}
    (h : Packed (f :: fs) mem) :
    ∃ pad rest, pad.length = RoundedArgumentSize f.Bytes.length - f.Bytes.length
      ∧ Packed fs rest ∧ mem = f.Bytes ++ pad ++ rest := by
  cases h with
  | cons _ pad hpad hrest => exact ⟨pad, _, hpad, hrest, rfl⟩

theorem Memcpy_whole (dst src : List UInt8) (h : dst.length = src.length) :
    Memcpy dst 0 src = src := by
  rw [Memcpy_eq _ _ _ (by omega)]
  simp [h]

theorem ReadFields_packed (heap : Nat → UInt8) (fields : List Field) :
    ∀ (m : FBackChannelOSCMessage) (pre : List UInt8) (reqs : List (UInt8 × List UInt8)),
      m.Mode = OSCPacketMode.Read → m.TagString = pre ++ fields.map Field.Code →
      m.TagIndex = pre.length → Packed fields (m.Buffer.drop m.BufferIndex) →
      reqs.map (fun q => (q.1, q.2.length)) = fields.map (fun f => (f.Code, f.Bytes.length)) →
      (ReadFields heap m reqs).2 = ExpectedReads m fields
        ∧ (ReadFields heap m reqs).2.map Access.Data = fields.map Field.Bytes
        ∧ (ReadFields heap m reqs).1.TagIndex = m.TagString.length := by
  induction fields with
  | nil =>
    intro m pre reqs _ hts hti _ hreq
    have : reqs = [] := by simpa using hreq
    subst this
    simp [ReadFields, ExpectedReads, hts, hti]
  | cons f fs ih =>
    intro m pre reqs hmode hts hti hp hreq
    cases reqs with
    | nil => simp at hreq
    | cons q rest =>
      simp only [List.map_cons, List.cons.injEq, Prod.mk.injEq] at hreq
      obtain ⟨⟨hq1, hq2⟩, hrest⟩ := hreq
      obtain ⟨pad, tail, hpad, hprest, hdrop⟩ := Packed_cons_inv hp
      · have hle := le_RoundedArgumentSize f.Bytes.length
        have hne : m.TagIndex ≠ m.TagString.length := by
          rw [hts, hti]; simp
        have hcur : m.CurrentTag = f.Code := by
          unfold FBackChannelOSCMessage.CurrentTag
          rw [hts, hti, List.map_cons, List.getD_eq_getElem?_getD,
            List.getElem?_append_right (le_refl _)]
          simp
        have htake : (m.Buffer.drop m.BufferIndex).take f.Bytes.length = f.Bytes := by
          rw [hdrop, List.append_assoc, List.take_left' rfl]
        have hacc : m.Serialize heap q.1 q.2 q.2.length
            = { Msg := { m with BufferIndex := m.BufferIndex + RoundedArgumentSize f.Bytes.length,
                                TagIndex := m.TagIndex + 1 },
                Data := (m.Buffer.drop m.BufferIndex).take f.Bytes.length, Logged := none } := by
          simp only [FBackChannelOSCMessage.Serialize, hmode,
            FBackChannelOSCMessage.SerializeRead, if_neg hne, hcur, hq1, hq2, htake]
          simp [Memcpy_whole q.2 f.Bytes hq2]
        have hnext := ih
          { m with BufferIndex := m.BufferIndex + RoundedArgumentSize f.Bytes.length,
                   TagIndex := m.TagIndex + 1 }
          (pre ++ [f.Code]) rest hmode (by simp [hts]) (by simp [hti])
          (by
            show Packed fs (m.Buffer.drop (m.BufferIndex + RoundedArgumentSize f.Bytes.length))
            rw [← List.drop_drop, hdrop, List.drop_left' (by simp [hpad]; omega)]
            exact hprest)
          hrest
        simp only [ReadFields, ExpectedReads, hacc]
        exact ⟨by rw [hnext.1], by rw [List.map_cons, List.map_cons, hnext.2.1, htake],
          hnext.2.2⟩

/-- C8 fails for a field whose tag character is the zero character: the message `/t`
with the one field `(0, [42, 0, 0, 0])` decodes to a message with an empty tag string,
and the `Serialize` call in Read mode with the same tag and size finds no tag left: it
logs that, copies nothing into the destination (here `[9, 9, 9, 9]`) and moves neither
cursor. -/
theorem Serialize_read_back_zero_tag_counterexample :
    CreateFromBuffer
        ((WriteMessage (fun _ => 205) [47, 116]
          [{ Code := 0, Bytes := [42, 0, 0, 0] }]).WriteToBuffer (fun _ => 205) [])
        ((WriteMessage (fun _ => 205) [47, 116]
          [{ Code := 0, Bytes := [42, 0, 0, 0] }]).GetSize : Int)
      = Except.ok (some { Mode := OSCPacketMode.Read, Address := [47, 116], TagString := [],
                          TagIndex := 0, Buffer := [42, 0, 0, 0], BufferIndex := 0 })
    ∧ (ReadFields (fun _ => 205)
        { Mode := OSCPacketMode.Read, Address := [47, 116], TagString := [],
          TagIndex := 0, Buffer := [42, 0, 0, 0], BufferIndex := 0 }
        [(0, [9, 9, 9, 9])]).2
      = [{ Msg := { Mode := OSCPacketMode.Read, Address := [47, 116], TagString := [],
                    TagIndex := 0, Buffer := [42, 0, 0, 0], BufferIndex := 0 },
           Data := [9, 9, 9, 9], Logged := some (OSCError.NoMoreTags 0) }]
    ∧ [([9, 9, 9, 9] : List UInt8)]
        ≠ [({ Code := 0, Bytes := [42, 0, 0, 0] } : Field)].map Field.Bytes
    ∧ [((0 : UInt8), ([9, 9, 9, 9] : List UInt8))].map (fun q => (q.1, q.2.length))
        = [({ Code := 0, Bytes := [42, 0, 0, 0] } : Field)].map
            (fun f => (f.Code, f.Bytes.length)) := by
  refine ⟨by rfl, by decide, by decide, by decide⟩

/-- C8, amended: write fixed-size fields whose tag characters are not the zero
character to a Write-mode message with
an address without a zero byte, encode it with `WriteToBuffer` and decode the result
with `CreateFromBuffer`; then `Serialize` calls in Read mode with the same sequence of
tags and sizes return the bytes of the fields, in order.  Each read copies its size in
bytes from the byte cursor, advances the byte cursor by the padded size and the tag
cursor by one, and after the last read the tag cursor is the length of the tag
string. -/
theorem Serialize_read_back (heap heapOut heapRead : Nat → UInt8) (Address : List UInt8)
    (fields : List Field) (reqs : List (UInt8 × List UInt8))
    (hA : (0 : UInt8) ∉ Address) (hT : ∀ f ∈ fields, f.Code ≠ 0)
    (hreq : reqs.map (fun q => (q.1, q.2.length))
      = fields.map (fun f => (f.Code, f.Bytes.length))) :
    ∃ r : FBackChannelOSCMessage,
      CreateFromBuffer ((WriteMessage heap Address fields).WriteToBuffer heapOut [])
          ((WriteMessage heap Address fields).GetSize : Int) = Except.ok (some r)
      ∧ (ReadFields heapRead r reqs).2 = ExpectedReads r fields
      ∧ (ReadFields heapRead r reqs).2.map Access.Data = fields.map Field.Bytes
      ∧ (ReadFields heapRead r reqs).1.TagIndex = r.TagString.length := by
  obtain ⟨tail, htail, hp⟩ := SerializeFields_Buffer heap
    ((FBackChannelOSCMessage.Construct OSCPacketMode.Write).SetAddress Address)
    (WriteBuilt.setAddress Address WriteBuilt.construct).invariant fields
  have hbuf : (WriteMessage heap Address fields).Buffer = tail := by
    rw [WriteMessage, htail]; rfl
  refine ⟨_, CreateFromBuffer_WriteToBuffer_decoded heap heapOut Address fields hA hT, ?_⟩
  exact ReadFields_packed heapRead fields _ [] reqs rfl rfl rfl
    (by rw [hbuf]; exact hp) hreq

theorem Serialize_read_back_witness :
    ((0 : UInt8) ∉ ([47, 116] : List UInt8))
    ∧ (∀ f ∈ [({ Code := 105, Bytes := [42, 0, 0, 0] } : Field), { Code := 98, Bytes := [7] }],
        f.Code ≠ 0)
    ∧ ∃ r : FBackChannelOSCMessage,
      CreateFromBuffer ((WriteMessage (fun _ => 205) [47, 116]
          [{ Code := 105, Bytes := [42, 0, 0, 0] }, { Code := 98, Bytes := [7] }]).WriteToBuffer
            (fun _ => 205) [])
          ((WriteMessage (fun _ => 205) [47, 116]
            [{ Code := 105, Bytes := [42, 0, 0, 0] }, { Code := 98, Bytes := [7] }]).GetSize : Int)
        = Except.ok (some r)
      ∧ (ReadFields (fun _ => 205) r [(105, [0, 0, 0, 0]), (98, [0])]).2
          = ExpectedReads r [{ Code := 105, Bytes := [42, 0, 0, 0] }, { Code := 98, Bytes := [7] }]
      ∧ (ReadFields (fun _ => 205) r [(105, [0, 0, 0, 0]), (98, [0])]).2.map Access.Data
          = [({ Code := 105, Bytes := [42, 0, 0, 0] } : Field), { Code := 98, Bytes := [7] }].map
              Field.Bytes
      ∧ (ReadFields (fun _ => 205) r [(105, [0, 0, 0, 0]), (98, [0])]).1.TagIndex
          = r.TagString.length :=
  ⟨by decide, by decide,
   Serialize_read_back (fun _ => 205) (fun _ => 205) (fun _ => 205) [47, 116]
     [{ Code := 105, Bytes := [42, 0, 0, 0] }, { Code := 98, Bytes := [7] }]
     [(105, [0, 0, 0, 0]), (98, [0])] (by decide) (by decide) (by decide)⟩


/-! ## `SendPacketData` (C4) -/

theorem Int32Bytes_length (n : Int) : (Int32Bytes n).length = 4 := rfl

theorem Int32OfBytes_Int32Bytes (n : Nat) (h : n < 2147483648) :
    Int32OfBytes (Int32Bytes (n : Int)) = (n : Int) := by
  have hu : ((n : Int) % 4294967296).toNat = n := by omega
  have hb : ∀ k : Nat, (UInt8.ofNat k).toNat = k % 256 := fun _ => rfl
  simp only [Int32OfBytes, Int32Bytes, hu, List.getD_cons_zero, List.getD_cons_succ, hb]
  have e : n % 256 % 256 + 256 * (n / 256 % 256 % 256) + 65536 * (n / 65536 % 256 % 256)
      + 16777216 * (n / 16777216 % 256 % 256) = n := by omega
  rw [e, if_pos h]

/-- C4 fails for the empty payload: on a connected session `SendPacketData` with
`DataLen = 0` hands nothing to the transport, not even the four bytes of the length,
and returns false although no write failed. -/
theorem SendPacketData_empty_counterexample :
    (FBackChannelOSCConnection.SendPacketData Recorder.Transport
        ({ Connection := { Calls := [], Script := [4, 1] }, IsRunning := true,
           ExitRequested := false, LastActivityTime := 0, LastPingTime := 0,
           ReceivedPackets := [] } : FBackChannelOSCConnection Recorder Unit)
        [] 0 1).1.Connection.Calls = []
    ∧ (FBackChannelOSCConnection.SendPacketData Recorder.Transport
        ({ Connection := { Calls := [], Script := [4, 1] }, IsRunning := true,
           ExitRequested := false, LastActivityTime := 0, LastPingTime := 0,
           ReceivedPackets := [] } : FBackChannelOSCConnection Recorder Unit)
        [] 0 1).2 = false
    ∧ ([] : List (List UInt8)) ≠ [Int32Bytes 0, []] := by
  refine ⟨by rfl, by rfl, by simp⟩

/-- C4, amended: if the session is not connected, `SendPacketData` fails at once: it
returns false and leaves the session, transport and last-activity time included, as it
was.  If the session is connected and the payload is empty it does the same.  If the
session is connected and the payload has `N > 0` bytes, it hands the transport the four
little-endian bytes of `N` and then exactly the `N` payload bytes, returns true exactly
when the payload write returned a positive count, and sets the last-activity time to
the clock exactly in that case. -/
theorem SendPacketData_frame {σ Packet : Type} (T : IBackChannelConnection σ)
    (s : FBackChannelOSCConnection σ Packet) (Data : List UInt8) (Now : ℚ) :
    (s.IsConnected = false →
      FBackChannelOSCConnection.SendPacketData T s Data Data.length Now = (s, false))
    ∧ (s.IsConnected = true → Data.length = 0 →
      FBackChannelOSCConnection.SendPacketData T s Data Data.length Now = (s, false))
    ∧ (s.IsConnected = true → 0 < Data.length →
      (Int32Bytes Data.length).length = 4
      ∧ (Data.length < 2147483648 → Int32OfBytes (Int32Bytes Data.length) = Data.length)
      ∧ (FBackChannelOSCConnection.SendPacketData T s Data Data.length Now).1.Connection
          = (T.SendData (T.SendData s.Connection (Int32Bytes Data.length)).1 Data).1
      ∧ ((FBackChannelOSCConnection.SendPacketData T s Data Data.length Now).2 = true
          ↔ 0 < (T.SendData (T.SendData s.Connection (Int32Bytes Data.length)).1 Data).2)
      ∧ (FBackChannelOSCConnection.SendPacketData T s Data Data.length Now).1.LastActivityTime
          = (if 0 < (T.SendData (T.SendData s.Connection (Int32Bytes Data.length)).1 Data).2
              then Now else s.LastActivityTime)
      ∧ (FBackChannelOSCConnection.SendPacketData T s Data Data.length Now).1
          = { s with
              Connection := (FBackChannelOSCConnection.SendPacketData T s Data Data.length
                Now).1.Connection,
              LastActivityTime := (FBackChannelOSCConnection.SendPacketData T s Data
                Data.length Now).1.LastActivityTime }) := by
  refine ⟨?_, ?_, ?_⟩
  · intro h
    simp [FBackChannelOSCConnection.SendPacketData, h]
  · intro h h0
    simp [FBackChannelOSCConnection.SendPacketData, h, h0]
  · intro h hpos
    have hpos' : (Data.length : Int) > 0 := by omega
    refine ⟨rfl, fun hlt => Int32OfBytes_Int32Bytes _ hlt, ?_⟩
    simp only [FBackChannelOSCConnection.SendPacketData, h, hpos', Bool.not_true,
      Bool.false_eq_true, if_false, if_true, Int.toNat_ofNat, List.take_length, gt_iff_lt]
    by_cases hs : 0 < (T.SendData (T.SendData s.Connection (Int32Bytes Data.length)).1 Data).2
    · simp [hs]
    · simp [hs]

theorem SendPacketData_frame_witness :
    (FBackChannelOSCConnection.SendPacketData Recorder.Transport
        ({ Connection := { Calls := [], Script := [4, 3] }, IsRunning := true,
           ExitRequested := false, LastActivityTime := 0, LastPingTime := 0,
           ReceivedPackets := [] } : FBackChannelOSCConnection Recorder Unit)
        [1, 2, 3] ([1, 2, 3] : List UInt8).length 7).1.Connection
      = { Calls := [[3, 0, 0, 0], [1, 2, 3]], Script := [] } :=
  ((SendPacketData_frame Recorder.Transport
      ({ Connection := { Calls := [], Script := [4, 3] }, IsRunning := true,
         ExitRequested := false, LastActivityTime := 0, LastPingTime := 0,
         ReceivedPackets := [] } : FBackChannelOSCConnection Recorder Unit)
      [1, 2, 3] 7).2.2 rfl (by decide)).2.2.1

/-! ## Frame assembly in `Run` (C3) -/

/-- C3: a stream that is the single frame with length 4 and payload `01 00 00 00`,
delivered as two receives of 4 bytes, ends with nothing handed to the packet factory
and an empty inbound queue: the worker tells the length from the payload by
`ExpectedDataSize == 4`, takes the 4 payload bytes for another length prefix, and now
awaits a payload of 1 byte.  The frame with length 5 delivered the same way is handed
over and queued. -/
theorem Run_frame_of_length_four :
    (Worker.RunLoop Recorder.Transport (fun Data DataLength => some (Data.take DataLength.toNat))
        (fun _ => 205)
        (Worker.Init (fun _ => 205)
          ({ Connection := { Calls := [], Script := [] }, IsRunning := true,
             ExitRequested := false, LastActivityTime := 0, LastPingTime := 0,
             ReceivedPackets := [] } : FBackChannelOSCConnection Recorder (List UInt8)) 0)
        [{ Incoming := [4, 0, 0, 0], TimeNow := 1, SendTime := 1 },
         { Incoming := [1, 0, 0, 0], TimeNow := 1, SendTime := 1 }]).Session.ReceivedPackets = []
    ∧ (Worker.RunLoop Recorder.Transport (fun Data DataLength => some (Data.take DataLength.toNat))
        (fun _ => 205)
        (Worker.Init (fun _ => 205)
          ({ Connection := { Calls := [], Script := [] }, IsRunning := true,
             ExitRequested := false, LastActivityTime := 0, LastPingTime := 0,
             ReceivedPackets := [] } : FBackChannelOSCConnection Recorder (List UInt8)) 0)
        [{ Incoming := [4, 0, 0, 0], TimeNow := 1, SendTime := 1 },
         { Incoming := [1, 0, 0, 0], TimeNow := 1, SendTime := 1 }]).ExpectedDataSize = 1
    ∧ (Worker.RunLoop Recorder.Transport (fun Data DataLength => some (Data.take DataLength.toNat))
        (fun _ => 205)
        (Worker.Init (fun _ => 205)
          ({ Connection := { Calls := [], Script := [] }, IsRunning := true,
             ExitRequested := false, LastActivityTime := 0, LastPingTime := 0,
             ReceivedPackets := [] } : FBackChannelOSCConnection Recorder (List UInt8)) 0)
        [{ Incoming := [5, 0, 0, 0], TimeNow := 1, SendTime := 1 },
         { Incoming := [1, 0, 0, 0, 0], TimeNow := 1, SendTime := 1 }]).Session.ReceivedPackets
      = [[1, 0, 0, 0, 0]] := by
  refine ⟨by decide!, by decide!, by decide!⟩

/-! ## `DispatchMessages` (C13) -/

theorem DispatchMessages_fold {δ : Type} (DispatchMessage : δ → FBackChannelOSCMessage → δ)
    (queue : List FBackChannelOSCPacket) (d : δ) :
    queue.foldl
      (fun d Packet =>
        if Packet.GetType = OSCPacketType.Message then
          match Packet with
          | FBackChannelOSCPacket.Message Msg => DispatchMessage d Msg
          | FBackChannelOSCPacket.Bundle => d
        else d) d
      = (QueuedMessages queue).foldl DispatchMessage d := by
  induction queue generalizing d with
  | nil => rfl
  | cons Packet rest ih =>
    rw [List.foldl_cons]
    cases Packet with
    | Message Msg =>
      rw [QueuedMessages, List.foldl_cons, ← ih]
      rfl
    | Bundle =>
      rw [QueuedMessages, ← ih]
      rfl

/-- C13: for every content of the inbound queue, `DispatchMessages` calls the message
handler of the dispatch map once for each queued packet that is a message, in queue
order, and for no other packet, and leaves the queue empty and the rest of the session
as it was.  With a handler that records its calls, the record is the list of the queued
messages. -/
theorem DispatchMessages_queue {σ δ : Type} (DispatchMessage : δ → FBackChannelOSCMessage → δ)
    (s : FBackChannelOSCConnection σ FBackChannelOSCPacket) (DispatchMap : δ) :
    (s.DispatchMessages DispatchMessage DispatchMap).2
        = (QueuedMessages s.ReceivedPackets).foldl DispatchMessage DispatchMap
    ∧ (s.DispatchMessages (fun calls Msg => calls ++ [Msg]) []).2
        = QueuedMessages s.ReceivedPackets
    ∧ (s.DispatchMessages DispatchMessage DispatchMap).1.ReceivedPackets = []
    ∧ (s.DispatchMessages DispatchMessage DispatchMap).1 = { s with ReceivedPackets := [] } := by
  refine ⟨DispatchMessages_fold DispatchMessage _ _, ?_, rfl, rfl⟩
  simp only [FBackChannelOSCConnection.DispatchMessages, DispatchMessages_fold]
  generalize QueuedMessages s.ReceivedPackets = msgs
  have h : ∀ (acc : List FBackChannelOSCMessage),
      msgs.foldl (fun calls Msg => calls ++ [Msg]) acc = acc ++ msgs := by
    induction msgs with
    | nil => simp
    | cons a rest ih => intro acc; simp [ih]
  simpa using h []

/-! ## `Start` (C14) -/

theorem Start_of_running {σ Packet : Type} (s : FBackChannelOSCConnection σ Packet)
    (Thread : Bool) (h : s.IsRunning = true) :
    s.Start Thread = Except.error AssertionFailed.check := by
  simp [FBackChannelOSCConnection.Start, h]

theorem Start_of_not_running {σ Packet : Type} (s : FBackChannelOSCConnection σ Packet)
    (Thread : Bool) (h : s.IsRunning = false) :
    s.Start Thread
      = Except.ok ({ s with ExitRequested := false, IsRunning := Thread }, Thread) := by
  cases Thread <;> simp [FBackChannelOSCConnection.Start, h]

/-- C14 fails on a running session: `Start` does not return false there, it fails its
assertion `check(IsRunning == false)`. -/
theorem Start_running_counterexample :
    (SessionWith () true false : FBackChannelOSCConnection Unit Unit).Start true
      = Except.error AssertionFailed.check
    ∧ (SessionWith () true false : FBackChannelOSCConnection Unit Unit).Start true
      ≠ Except.ok ((SessionWith () true false : FBackChannelOSCConnection Unit Unit), false) :=
  ⟨rfl, fun h => by cases h⟩

/-- C14, amended: `Start` on a session that is running fails the assertion
`check(IsRunning == false)`: it does not return, spawns no worker and changes nothing.
On a session that is not running it clears exit-requested, returns true exactly when the
worker was spawned, and the session is Running exactly in that case. -/
theorem Start_by_state {σ Packet : Type} (s : FBackChannelOSCConnection σ Packet)
    (Thread : Bool) :
    (s.IsRunning = true → s.Start Thread = Except.error AssertionFailed.check)
    ∧ (s.IsRunning = false →
        s.Start Thread
          = Except.ok ({ s with ExitRequested := false, IsRunning := Thread }, Thread)
        ∧ ∃ s1 Result, s.Start Thread = Except.ok (s1, Result)
            ∧ (Result = true ↔ Thread = true) ∧ (s1.IsConnected = true ↔ Thread = true)) := by
  constructor
  · intro h
    exact Start_of_running s Thread h
  · intro h
    have e := Start_of_not_running s Thread h
    exact ⟨e, _, _, e, Iff.rfl, Iff.rfl⟩

theorem Start_by_state_witness :
    (SessionWith () false true : FBackChannelOSCConnection Unit Unit).IsRunning = false
    ∧ (SessionWith () false true : FBackChannelOSCConnection Unit Unit).Start true
      = Except.ok ((SessionWith () true false : FBackChannelOSCConnection Unit Unit), true) :=
  ⟨rfl,
   ((Start_by_state (SessionWith () false true : FBackChannelOSCConnection Unit Unit) true).2
      rfl).1⟩

/-! ## The running flag over `Start`, `Stop` and worker exits (C15) -/

/-- C15 fails: a session that was started and whose worker then left `Run`, or that
was stopped, is Running again after another `Start`. -/
theorem Start_after_stop_counterexample :
    Operation.Connected (FBackChannelOSCConnection.Construct () : FBackChannelOSCConnection
        (Option Unit) Unit)
      [Operation.Start true, Operation.WorkerExit, Operation.Start true] = [true, false, true]
    ∧ Operation.Connected (FBackChannelOSCConnection.Construct () : FBackChannelOSCConnection
        (Option Unit) Unit)
      [Operation.Start true, Operation.Stop, Operation.Start true] = [true, false, true] :=
  ⟨rfl, rfl⟩

/-- C15, amended: the session keeps no state but its running flag.  `Stop` and the exit
of the worker leave it not running (`Stop` also releases the connection); `Start` on a
session that is not running, whatever happened to it before, clears exit-requested and
makes it Running exactly when the worker is spawned, so a stopped session can be
started again; `Start` on a running session fails its assertion. -/
theorem Operation_Apply_IsConnected {τ Packet : Type}
    (s : FBackChannelOSCConnection (Option τ) Packet) :
    (∀ Thread, s.IsRunning = false →
      ∃ s1, (Operation.Start Thread).Apply s = Except.ok s1 ∧ s1.IsConnected = Thread
        ∧ s1.ExitRequested = false)
    ∧ (∀ Thread, s.IsRunning = true →
        (Operation.Start Thread).Apply s = Except.error AssertionFailed.check)
    ∧ (∃ s1, Operation.Stop.Apply s = Except.ok s1 ∧ s1.IsConnected = false
        ∧ s1.Connection = none)
    ∧ (∃ s1, Operation.WorkerExit.Apply s = Except.ok s1 ∧ s1.IsConnected = false) := by
  refine ⟨?_, ?_, ?_, ?_⟩
  · intro Thread h
    refine ⟨{ s with ExitRequested := false, IsRunning := Thread }, ?_, rfl, rfl⟩
    simp only [Operation.Apply, Start_of_not_running s Thread h]
    rfl
  · intro Thread h
    simp only [Operation.Apply, Start_of_running s Thread h]
    rfl
  · refine ⟨s.Stop, rfl, ?_, rfl⟩
    cases h : s.IsRunning <;>
      simp [FBackChannelOSCConnection.Stop, FBackChannelOSCConnection.IsConnected, h]
  · exact ⟨_, rfl, rfl⟩

theorem Operation_Apply_IsConnected_witness :
    (FBackChannelOSCConnection.Construct () : FBackChannelOSCConnection (Option Unit)
      Unit).Stop.IsRunning = false
    ∧ ∃ s1, (Operation.Start true).Apply
        (FBackChannelOSCConnection.Construct () : FBackChannelOSCConnection (Option Unit)
          Unit).Stop = Except.ok s1 ∧ s1.IsConnected = true ∧ s1.ExitRequested = false :=
  ⟨rfl, (Operation_Apply_IsConnected _).1 true rfl⟩

/-! ## Stores of `WriteToBuffer` (C18) -/

/-- With at least one argument byte every store of `WriteToBuffer` lies inside the
`GetSize` cells it allocated. -/
theorem WriteToBufferStores_lt (m : FBackChannelOSCMessage)
    (hargs : 0 < m.BufferIndex) : ∀ i ∈ m.WriteToBufferStores, i < m.GetSize := by
  have hkA := le_RoundedArgumentSize (m.Address.length + 1)
  have hft : CStr m.FinalTagString = m.FinalTagString := by
    apply CStr_of_not_mem
    simp only [FBackChannelOSCMessage.FinalTagString, List.mem_cons, not_or]
    exact ⟨by decide, not_mem_CStr _⟩
  have hkT := le_RoundedArgumentSize (m.FinalTagString.length + 1)
  intro i hi
  simp only [FBackChannelOSCMessage.WriteToBufferStores, hft, RoundedArgumentSize_idem,
    List.mem_append, List.mem_range'_1, List.mem_singleton] at hi
  simp only [FBackChannelOSCMessage.GetSize]
  omega

/-- C18: for the heartbeat message `/ping`, which has no fields, `GetSize` is 12 and
`WriteToBuffer` stores to the cells 0 to 9 and to the cell 12: the terminator
`pOutBuffer[kTagLength] = 0` lands one cell beyond the 12 cells allocated. -/
theorem WriteToBuffer_ping_store_outside :
    PingMessage.GetSize = 12
    ∧ PingMessage.WriteToBufferStores = [0, 1, 2, 3, 4, 5, 6, 7, 7, 8, 8, 9, 12]
    ∧ 12 ∈ PingMessage.WriteToBufferStores
    ∧ ¬ (12 < PingMessage.GetSize) := by
  decide

/-! ## The argument length in `CreateFromBuffer` (C20) -/

/-- A string with a terminator among the first `n` bytes scanned is shorter than `n`. -/
theorem length_lt_of_terminated {L : List UInt8} {n : Nat} (h : (0 : UInt8) ∈ L.take n) :
    (0 : UInt8) ∈ L ∧ (CStr L).length < n := by
  have hmem : (0 : UInt8) ∈ L := List.mem_of_mem_take h
  refine ⟨hmem, ?_⟩
  obtain ⟨rest, hrest⟩ := CStr_split hmem
  by_contra hge
  have hsub : L.take n = (CStr L).take n := by
    conv_lhs => rw [hrest]
    rw [List.take_append_of_le_length (by omega)]
  rw [hsub] at h
  exact not_mem_CStr L (List.mem_of_mem_take h)

/-- C20 fails: in the 6 bytes `/a\0\0,\0` the address and the tag string are both
terminated before index 6, yet the padded sections consume 8 bytes and the argument
length `CreateFromBuffer` computes is -2. -/
theorem CreateFromBuffer_unpadded_counterexample :
    ((0 : UInt8) ∈ ([47, 97, 0, 0, 44, 0] : List UInt8).take 6)
    ∧ ((0 : UInt8) ∈ (([47, 97, 0, 0, 44, 0] : List UInt8).drop
        (RoundedArgumentSize ((CStr [47, 97, 0, 0, 44, 0]).length + 1))).take
          (6 - RoundedArgumentSize ((CStr [47, 97, 0, 0, 44, 0]).length + 1)))
    ∧ RoundedArgumentSize ((CStr [47, 97, 0, 0, 44, 0]).length + 1)
        + RoundedArgumentSize ((CStr (([47, 97, 0, 0, 44, 0] : List UInt8).drop 4)).length + 1)
        = 8
    ∧ CreateFromBuffer [47, 97, 0, 0, 44, 0] 6 = Except.error (Undefined.NegativeCount (-2)) :=
  ⟨by decide, by decide, by decide, by rfl⟩

/-- C20, amended: for every buffer of at least `DataLength` bytes, `DataLength` a
multiple of 4, in which both the address and the tag string that follows it are
zero-terminated within the first `DataLength` bytes, the padded address and tag
sections consume at most `DataLength` bytes, so the argument length is not negative,
and `CreateFromBuffer` returns the message whose argument buffer is exactly the bytes
from the end of the padded tag section up to index `DataLength`. -/
theorem CreateFromBuffer_argument_length (Data : List UInt8) (DataLength : Nat)
    (hpad : DataLength % 4 = 0) (hmem : DataLength ≤ Data.length)
    (hA : (0 : UInt8) ∈ Data.take DataLength)
    (hT : (0 : UInt8) ∈ (Data.drop (RoundedArgumentSize ((CStr Data).length + 1))).take
      (DataLength - RoundedArgumentSize ((CStr Data).length + 1))) :
    RoundedArgumentSize ((CStr Data).length + 1)
        + RoundedArgumentSize
            ((CStr (Data.drop (RoundedArgumentSize ((CStr Data).length + 1)))).length + 1)
      ≤ DataLength
    ∧ CreateFromBuffer Data (DataLength : Int)
      = Except.ok (some
          { Mode := OSCPacketMode.Read, Address := CStr Data,
            TagString := RightChop (CStr (Data.drop (RoundedArgumentSize ((CStr Data).length + 1))))
              (FindComma (CStr (Data.drop (RoundedArgumentSize ((CStr Data).length + 1)))) + 1),
            TagIndex := 0,
            Buffer := (Data.drop (RoundedArgumentSize ((CStr Data).length + 1)
              + RoundedArgumentSize
                ((CStr (Data.drop (RoundedArgumentSize ((CStr Data).length + 1)))).length + 1))).take
                (DataLength - (RoundedArgumentSize ((CStr Data).length + 1)
                  + RoundedArgumentSize
                    ((CStr (Data.drop (RoundedArgumentSize ((CStr Data).length + 1)))).length + 1))),
            BufferIndex := 0 }) := by
  obtain ⟨hA0, hAlen⟩ := length_lt_of_terminated hA
  obtain ⟨hT0, hTlen⟩ := length_lt_of_terminated hT
  generalize hp1 : RoundedArgumentSize ((CStr Data).length + 1) = p1 at *
  generalize hTs : CStr (Data.drop p1) = T at *
  have h1 : p1 ≤ DataLength := by
    rw [← hp1]; exact RoundedArgumentSize_least hpad (by omega)
  have hp1mod : p1 % 4 = 0 := by rw [← hp1]; exact RoundedArgumentSize_mod _
  have h2 : RoundedArgumentSize (T.length + 1) ≤ DataLength - p1 :=
    RoundedArgumentSize_least (by omega) (by omega)
  have hle : p1 + RoundedArgumentSize (T.length + 1) ≤ DataLength := by omega
  have hsA : AnsiToTChar Data 0 = Except.ok (CStr Data) := by
    simp [AnsiToTChar, hA0]
  have hsT : AnsiToTChar Data (RoundedArgumentSize ((CStr Data).length + 1)) = Except.ok T := by
    rw [hp1]
    simp [AnsiToTChar, hT0, hTs]
  refine ⟨hle, ?_⟩
  rw [CreateFromBuffer_of_scans _ hsA hsT, hp1]
  have hnn : ¬ ((DataLength : Int) - ((p1 + RoundedArgumentSize (T.length + 1) : Nat) : Int) < 0) := by
    omega
  have hto : ((DataLength : Int) - ((p1 + RoundedArgumentSize (T.length + 1) : Nat) : Int)).toNat
      = DataLength - (p1 + RoundedArgumentSize (T.length + 1)) := by omega
  rw [if_neg hnn, hto, if_neg (by omega)]

theorem CreateFromBuffer_argument_length_witness :
    (8 % 4 = 0) ∧ (8 ≤ ([47, 97, 0, 0, 44, 0, 0, 0, 9] : List UInt8).length)
    ∧ RoundedArgumentSize ((CStr [47, 97, 0, 0, 44, 0, 0, 0, 9]).length + 1)
        + RoundedArgumentSize ((CStr (([47, 97, 0, 0, 44, 0, 0, 0, 9] : List UInt8).drop
            (RoundedArgumentSize ((CStr [47, 97, 0, 0, 44, 0, 0, 0, 9]).length + 1)))).length + 1)
      ≤ 8 :=
  ⟨by decide, by decide,
   (CreateFromBuffer_argument_length [47, 97, 0, 0, 44, 0, 0, 0, 9] 8 (by decide) (by decide)
      (by decide) (by decide)).1⟩

/-! ## Cursors in Read mode (C17) -/

theorem RunLoop_of_exit {σ Packet : Type} (T : IBackChannelConnection σ)
    (f : List UInt8 → Int → Option Packet) (heap : Nat → UInt8) (w : Worker σ Packet)
    (h : w.Session.ExitRequested = true) (polls : List Poll) :
    Worker.RunLoop T f heap w polls = w := by
  cases polls with
  | nil => rfl
  | cons p ps => simp [Worker.RunLoop, h]

theorem RunLoop_append {σ Packet : Type} (T : IBackChannelConnection σ)
    (f : List UInt8 → Int → Option Packet) (heap : Nat → UInt8) (a b : List Poll) :
    ∀ w : Worker σ Packet,
      Worker.RunLoop T f heap w (a ++ b)
        = Worker.RunLoop T f heap (Worker.RunLoop T f heap w a) b := by
  induction a with
  | nil => intro w; rfl
  | cons p ps ih =>
    intro w
    by_cases h : w.Session.ExitRequested = true
    · rw [RunLoop_of_exit T f heap w h, RunLoop_of_exit T f heap w h, RunLoop_of_exit T f heap w h]
    · simp only [List.cons_append, Worker.RunLoop, h, if_false, Bool.false_eq_true]
      exact ih _

theorem ScratchInvariant_RunIteration {σ Packet : Type} (T : IBackChannelConnection σ)
    (f : List UInt8 → Int → Option Packet) (heap : Nat → UInt8) (w : Worker σ Packet)
    (h : ScratchInvariant w) (p : Poll) :
    ScratchInvariant (Worker.RunIteration T f heap w p)
      ∧ w.Buffer.length ≤ (Worker.RunIteration T f heap w p).Buffer.length := by
  have h1 := h.received
  have h2 := h.expected
  have h3 := h.size
  unfold Worker.RunIteration
  simp only
  split
  · rename_i hpos
    split
    · split
      · split
        · rename_i hgt
          simp only [length_Memcpy] at hgt
          refine ⟨⟨le_refl _, ?_, ?_⟩, ?_⟩ <;>
            simp only [length_AddUninitialized, length_Memcpy] <;> omega
        · rename_i hgt
          simp only [length_Memcpy] at hgt
          refine ⟨⟨le_refl _, ?_, ?_⟩, ?_⟩ <;> simp only [length_Memcpy] <;> omega
      · refine ⟨⟨le_refl _, ?_, ?_⟩, ?_⟩ <;> simp only [length_Memcpy] <;> omega
    · refine ⟨⟨?_, ?_, ?_⟩, ?_⟩ <;> simp only [length_Memcpy] <;> omega
  · refine ⟨⟨h1, ?_, ?_⟩, ?_⟩ <;> simp only [length_Memcpy] <;> omega

theorem ScratchInvariant_RunLoop {σ Packet : Type} (T : IBackChannelConnection σ)
    (f : List UInt8 → Int → Option Packet) (heap : Nat → UInt8) (polls : List Poll) :
    ∀ w : Worker σ Packet, ScratchInvariant w →
      ScratchInvariant (Worker.RunLoop T f heap w polls)
        ∧ w.Buffer.length ≤ (Worker.RunLoop T f heap w polls).Buffer.length := by
  induction polls with
  | nil => intro w h; exact ⟨h, le_refl _⟩
  | cons p ps ih =>
    intro w h
    by_cases he : w.Session.ExitRequested = true
    · rw [RunLoop_of_exit T f heap w he]; exact ⟨h, le_refl _⟩
    · obtain ⟨h1, hl1⟩ := ScratchInvariant_RunIteration T f heap w h p
      obtain ⟨h2, hl2⟩ := ih _ h1
      simp only [Worker.RunLoop, he, if_false, Bool.false_eq_true]
      exact ⟨h2, le_trans hl1 hl2⟩

theorem ScratchInvariant_Init {σ Packet : Type} (heap : Nat → UInt8)
    (s : FBackChannelOSCConnection σ Packet) (Now : ℚ) :
    ScratchInvariant (Worker.Init heap s Now) ∧ (Worker.Init heap s Now).Buffer.length = 4096 := by
  refine ⟨⟨le_refl _, ?_, ?_⟩, ?_⟩ <;> simp [Worker.Init]

/-- C19: whatever bytes the polls delivered, at every iteration of the loop of `Run`
the received count is at least 0, the received count plus the number of bytes asked of
the transport is at most the size of the scratch buffer, and that size is at least 4096
and no smaller than it was one iteration before; so a receive that returns at most the
number of bytes asked for stores them inside the scratch buffer. -/
theorem Run_scratch_buffer {σ Packet : Type} (T : IBackChannelConnection σ)
    (f : List UInt8 → Int → Option Packet) (heap : Nat → UInt8)
    (s : FBackChannelOSCConnection σ Packet) (Now : ℚ) (polls : List Poll) (p : Poll) :
    0 ≤ (Worker.RunLoop T f heap (Worker.Init heap s Now) polls).ReceivedDataSize
    ∧ (Worker.RunLoop T f heap (Worker.Init heap s Now) polls).ReceivedDataSize
        + (Worker.RunLoop T f heap (Worker.Init heap s Now) polls).Requested
      ≤ (Worker.RunLoop T f heap (Worker.Init heap s Now) polls).Buffer.length
    ∧ 4096 ≤ (Worker.RunLoop T f heap (Worker.Init heap s Now) polls).Buffer.length
    ∧ (Worker.RunLoop T f heap (Worker.Init heap s Now) polls).Buffer.length
      ≤ (Worker.RunLoop T f heap (Worker.Init heap s Now) (polls ++ [p])).Buffer.length
    ∧ ((p.Incoming.length : Int)
          ≤ (Worker.RunLoop T f heap (Worker.Init heap s Now) polls).Requested →
        (Worker.RunLoop T f heap (Worker.Init heap s Now) polls).ReceivedDataSize.toNat
            + p.Incoming.length
          ≤ (Worker.RunLoop T f heap (Worker.Init heap s Now) polls).Buffer.length) := by
  obtain ⟨hinv, _⟩ := ScratchInvariant_RunLoop T f heap polls _
    (ScratchInvariant_Init heap s Now).1
  obtain ⟨_, hmono⟩ := ScratchInvariant_RunLoop T f heap [p] _ hinv
  have h1 := hinv.received
  have h2 := hinv.expected
  have h3 := hinv.size
  rw [RunLoop_append]
  refine ⟨h1, ?_, h3, hmono, ?_⟩
  · simp only [Worker.Requested]; omega
  · intro hreq
    simp only [Worker.Requested] at hreq
    omega

theorem Run_scratch_buffer_witness :
    ((({ Incoming := [1, 2], TimeNow := 1, SendTime := 1 } : Poll).Incoming.length : Int)
      ≤ (Worker.RunLoop Recorder.Transport (fun _ _ => (none : Option Unit)) (fun _ => 0)
          (Worker.Init (fun _ => 0) (SessionWith { Calls := [], Script := [] } true false) 0)
          [{ Incoming := [9, 0], TimeNow := 1, SendTime := 1 }]).Requested)
    ∧ (Worker.RunLoop Recorder.Transport (fun _ _ => (none : Option Unit)) (fun _ => 0)
          (Worker.Init (fun _ => 0) (SessionWith { Calls := [], Script := [] } true false) 0)
          [{ Incoming := [9, 0], TimeNow := 1, SendTime := 1 }]).ReceivedDataSize.toNat
        + ({ Incoming := [1, 2], TimeNow := 1, SendTime := 1 } : Poll).Incoming.length
      ≤ (Worker.RunLoop Recorder.Transport (fun _ _ => (none : Option Unit)) (fun _ => 0)
          (Worker.Init (fun _ => 0) (SessionWith { Calls := [], Script := [] } true false) 0)
          [{ Incoming := [9, 0], TimeNow := 1, SendTime := 1 }]).Buffer.length :=
  ⟨by decide!,
   (Run_scratch_buffer Recorder.Transport (fun _ _ => (none : Option Unit)) (fun _ => 0)
      (SessionWith { Calls := [], Script := [] } true false) 0
      [{ Incoming := [9, 0], TimeNow := 1, SendTime := 1 }]
      { Incoming := [1, 2], TimeNow := 1, SendTime := 1 }).2.2.2.2 (by decide!)⟩

/-! ## Idle polls: heartbeat and timeout -/

/-- C12 fails on clock values that `float` does not hold.  A connected worker started
at clock 16777216 that receives nothing and is polled at clock 16777221, 5 seconds past
its heartbeat time, sends nothing and keeps its heartbeat time: `TimeNow` is the `float`
16777220.  A connected worker started at clock 0 and polled at clock `5 - 2 ^ (-30)`,
less than 5 seconds past its heartbeat time, sends a `/ping` and sets its heartbeat time
to 5, which is not the clock of the poll. -/
theorem Run_heartbeat_single_precision :
    ToFloat 16777221 = 16777220
    ∧ (Worker.RunLoop Recorder.Transport (fun _ _ => (none : Option Unit)) (fun _ => 0)
        (Worker.Init (fun _ => 0) (SessionWith { Calls := [], Script := [4, 12] } true false)
          16777216)
        [{ Incoming := [], TimeNow := 16777221, SendTime := 16777221 }]).Session.Connection.Calls
      = []
    ∧ (Worker.RunLoop Recorder.Transport (fun _ _ => (none : Option Unit)) (fun _ => 0)
        (Worker.Init (fun _ => 0) (SessionWith { Calls := [], Script := [4, 12] } true false)
          16777216)
        [{ Incoming := [], TimeNow := 16777221, SendTime := 16777221 }]).Session.LastPingTime
      = 16777216
    ∧ ((16777221 : ℚ) - 16777216 ≥ 5)
    ∧ ToFloat (5 - 1 / 1073741824) = 5
    ∧ (Worker.RunLoop Recorder.Transport (fun _ _ => (none : Option Unit)) (fun _ => 0)
        (Worker.Init (fun _ => 0) (SessionWith { Calls := [], Script := [4, 12] } true false) 0)
        [{ Incoming := [], TimeNow := 5 - 1 / 1073741824,
           SendTime := 5 - 1 / 1073741824 }]).Session.Connection.Calls
      = [[12, 0, 0, 0], [47, 112, 105, 110, 103, 0, 0, 0, 44, 0, 0, 0]]
    ∧ (Worker.RunLoop Recorder.Transport (fun _ _ => (none : Option Unit)) (fun _ => 0)
        (Worker.Init (fun _ => 0) (SessionWith { Calls := [], Script := [4, 12] } true false) 0)
        [{ Incoming := [], TimeNow := 5 - 1 / 1073741824,
           SendTime := 5 - 1 / 1073741824 }]).Session.LastPingTime
      = 5
    ∧ ¬ ((5 - 1 / 1073741824 : ℚ) - 0 ≥ 5) := by
  refine ⟨by decide!, by decide!, by decide!, by decide!, by decide!, by decide!, by decide!,
    by decide!⟩

end BackChannel
